import Mathlib

/-! Ray caster: one ray per pixel (Q2) and 64 jittered samples per pixel (Q3).

Shallow embedding of `Q2/main.cpp` and `Q3/main.cpp`.

* `float` arithmetic is taken exact: scalars live in a linear ordered field `K`
  (the definitions run on `ℚ`; the theorems hold on every such field, `ℝ` included).
  Rounding, overflow to infinity and NaN are outside the model.
* The two libm calls of the program, `sqrtf` and `pow`, are the fields of `MathOps`;
  what a theorem needs of them (`ExactSqrt`, `PowUnit`) is a hypothesis, and the witnesses
  discharge it for the real square root and the real power.
* `glm::dot`, `glm::normalize`, `glm::clamp` follow glm:
  `normalize v = v * inversesqrt (dot v v)`.
* `bool f(..., T& out)` becomes `Option T`; the global `OutputImage` is passed and returned;
  the values of the successive calls of `rand()` are a stream with a call counter.
* `int` is `Int`, loop counters are `Nat`; a `float` passed for an `int` is truncated.
-/

namespace RayCaster

set_option linter.unusedSectionVars false

/-- The libm functions called by the program. -/
structure MathOps (K : Type) where
  sqrtf : K → K
  pow : K → K → K

/-- The glm vector of three floats. -/
structure vec3 (K : Type) where
  x : K
  y : K
  z : K

section Vec

variable {K : Type} [LinearOrderedField K]

instance : Zero (vec3 K) := ⟨⟨0, 0, 0⟩⟩
instance : Add (vec3 K) := ⟨fun a b => ⟨a.x + b.x, a.y + b.y, a.z + b.z⟩⟩
instance : Sub (vec3 K) := ⟨fun a b => ⟨a.x - b.x, a.y - b.y, a.z - b.z⟩⟩
instance : Neg (vec3 K) := ⟨fun a => ⟨-a.x, -a.y, -a.z⟩⟩
/-- Component-wise product `vec3 * vec3`. -/
instance : Mul (vec3 K) := ⟨fun a b => ⟨a.x * b.x, a.y * b.y, a.z * b.z⟩⟩
/-- Scaling `float * vec3`. -/
instance : HMul K (vec3 K) (vec3 K) := ⟨fun s a => ⟨s * a.x, s * a.y, s * a.z⟩⟩
/-- Scaling `vec3 * float`. -/
instance : HMul (vec3 K) K (vec3 K) := ⟨fun a s => ⟨a.x * s, a.y * s, a.z * s⟩⟩
/-- Division `vec3 / float`. -/
instance : HDiv (vec3 K) K (vec3 K) := ⟨fun a s => ⟨a.x / s, a.y / s, a.z / s⟩⟩

/-- The constructor `vec3(s)`: all three components equal. -/
def vec3.splat (s : K) : vec3 K := ⟨s, s, s⟩

/-- The glm function `dot`. -/
def dot (a b : vec3 K) : K := a.x * b.x + a.y * b.y + a.z * b.z

/-- The glm function `inversesqrt`. -/
def inversesqrt (ops : MathOps K) (s : K) : K := 1 / ops.sqrtf s

/-- The glm function `normalize`. -/
def normalize (ops : MathOps K) (v : vec3 K) : vec3 K := v * inversesqrt ops (dot v v)

/-- The glm function `clamp(v, lo, hi)`, component-wise `min (max x lo) hi`. -/
def clamp (v : vec3 K) (lo hi : K) : vec3 K :=
  ⟨min (max v.x lo) hi, min (max v.y lo) hi, min (max v.z lo) hi⟩

end Vec

/-- A ray: `origin` and `direction`. -/
structure Ray (K : Type) where
  origin : vec3 K
  direction : vec3 K

/-- The material record. -/
structure Material (K : Type) where
  ka : vec3 K
  kd : vec3 K
  ks : vec3 K
  specPower : K

/-- The plane `y = const` with its stored normal. -/
structure Plane (K : Type) where
  material : Material K
  y : K
  normal : vec3 K

/-- The sphere. -/
structure Sphere (K : Type) where
  material : Material K
  center : vec3 K
  radius : K

/-- The class hierarchy below `Surface`, closed. -/
inductive Surface (K : Type) where
  | plane : Plane K → Surface K
  | sphere : Sphere K → Surface K

/-- The scene: surfaces in insertion order. -/
structure Scene (K : Type) where
  objects : List (Surface K)

/-- The four output parameters of `Scene::intersect`. -/
structure HitRecord (K : Type) where
  hitColor : vec3 K
  hitNormal : vec3 K
  mat : Material K
  hitPos : vec3 K

/-- The camera. -/
structure Camera (K : Type) where
  eye : vec3 K
  u : vec3 K
  v : vec3 K
  w : vec3 K
  l : K
  r : K
  b : K
  t : K
  d : K
  nx : Int
  ny : Int

section Model

variable {K : Type} [LinearOrderedField K]

/-- The constant `std::numeric_limits<float>::max()`, that is `(2 - 2^-23) * 2^127`. -/
def FLT_MAX : K := 340282346638528859811704183484516925440

/-- The constructor `Ray(o, d)`: the direction is normalized. -/
def Ray.new (ops : MathOps K) (o d : vec3 K) : Ray K := ⟨o, normalize ops d⟩

/-- The constructor `Plane(y, mat)`: the normal is `(0, 1, 0)`. -/
def Plane.new (y : K) (mat : Material K) : Plane K := ⟨mat, y, ⟨0, 1, 0⟩⟩

/-- The constructor `Sphere(center, radius, mat)`. -/
def Sphere.new (center : vec3 K) (radius : K) (mat : Material K) : Sphere K :=
  ⟨mat, center, radius⟩

/-- The method `Plane::intersect`: the parameter `t` and the normal on a hit. -/
def Plane.intersect (p : Plane K) (ray : Ray K) : Option (K × vec3 K) :=
  if ray.direction.y = 0 then none
  else
    let t := (p.y - ray.origin.y) / ray.direction.y
    if t < 0 then none
    else some (t, p.normal)

/-- The method `Plane::getPosition`. -/
def Plane.getPosition (_p : Plane K) (ray : Ray K) (t : K) : vec3 K :=
  ray.origin + t * ray.direction

/-- The method `Sphere::intersect`: the parameter `t` and the normal on a hit. -/
def Sphere.intersect (ops : MathOps K) (s : Sphere K) (ray : Ray K) : Option (K × vec3 K) :=
  let oc := ray.origin - s.center
  let a := dot ray.direction ray.direction
  let b := 2 * dot oc ray.direction
  let c := dot oc oc - s.radius * s.radius
  let discriminant := b * b - 4 * a * c
  if discriminant < 0 then none
  else
    let temp := (-b - ops.sqrtf discriminant) / (2 * a)
    if temp < 0 then none
    else
      let t := temp
      let hitPoint := ray.origin + t * ray.direction
      some (t, normalize ops (hitPoint - s.center))

/-- The method `Sphere::getPosition`. -/
def Sphere.getPosition (_s : Sphere K) (ray : Ray K) (t : K) : vec3 K :=
  ray.origin + t * ray.direction

/-- The member `Surface::material`. -/
def Surface.material : Surface K → Material K
  | .plane p => p.material
  | .sphere s => s.material

/-- The virtual method `Surface::intersect`. -/
def Surface.intersect (ops : MathOps K) : Surface K → Ray K → Option (K × vec3 K)
  | .plane p, ray => p.intersect ray
  | .sphere s, ray => s.intersect ops ray

/-- The virtual method `Surface::getPosition`. -/
def Surface.getPosition : Surface K → Ray K → K → vec3 K
  | .plane p, ray, t => p.getPosition ray t
  | .sphere s, ray, t => s.getPosition ray t

/-- The method `Scene::addObject`. -/
def Scene.addObject (scene : Scene K) (obj : Surface K) : Scene K :=
  ⟨scene.objects ++ [obj]⟩

/-- One turn of the loop of `Scene::intersect`; the state is `t_min` and, once `hit` is
set, the output parameters. -/
def Scene.intersectStep (ops : MathOps K) (ray : Ray K)
    (st : K × Option (HitRecord K)) (obj : Surface K) : K × Option (HitRecord K) :=
  match obj.intersect ops ray with
  | some (t, normal) =>
    if t < st.1 then
      (t, some ⟨obj.material.kd, normal, obj.material, obj.getPosition ray t⟩)
    else st
  | none => st

/-- The method `Scene::intersect`: `none` for `false`, the output parameters for `true`. -/
def Scene.intersect (ops : MathOps K) (scene : Scene K) (ray : Ray K) :
    Option (HitRecord K) :=
  (scene.objects.foldl (Scene.intersectStep ops ray) (FLT_MAX, none)).2

/-- The method `Camera::generateRay(int i, int j)`. -/
def Camera.generateRay (ops : MathOps K) (camera : Camera K) (i j : Int) : Ray K :=
  let u_coord := camera.l + (camera.r - camera.l) * ((i : K) + 0.5) / (camera.nx : K)
  let v_coord := camera.b + (camera.t - camera.b) * ((j : K) + 0.5) / (camera.ny : K)
  let dir := normalize ops (camera.u * u_coord + camera.v * v_coord - camera.w * camera.d)
  Ray.new ops camera.eye dir

/-- The constant `Width`. -/
def Width : Nat := 512

/-- The constant `Height`. -/
def Height : Nat := 512

/-- The local `lightPos` of `render`. -/
def lightPos : vec3 K := ⟨-4, 4, -3⟩

/-- The local `Ia` of `render`, the ambient light. -/
def Ia : vec3 K := vec3.splat 1

/-- The local `Il` of `render`, the point light. -/
def Il : vec3 K := vec3.splat 1

/-- The local `gamma` of `render`. -/
def gamma : K := 2.2

/-- The method `std::vector::clear`. -/
def clear (_v : List K) : List K := []

/-- The method `std::vector::push_back`. -/
def push_back (v : List K) (a : K) : List K := v ++ [a]

/-- The shading statements inside `if (scene.intersect(ray, ...))`, the same in both
programs, down to `pixelColor = ambient + diffuse + specular`: the value of that sum. -/
def shade (ops : MathOps K) (scene : Scene K) (ray : Ray K) (hit : HitRecord K) : vec3 K :=
  let normal := hit.hitNormal
  let mat := hit.mat
  let hitPos := hit.hitPos
  let lightDir := normalize ops (lightPos - hitPos)
  let shadowRay := Ray.new ops (hitPos + (0.001 : K) * lightDir) lightDir
  let inShadow := (scene.intersect ops shadowRay).isSome
  let V := normalize ops (-ray.direction)
  let R := normalize ops (((2 : K) * dot normal lightDir) * normal - lightDir)
  let ambient := mat.ka * Ia
  let diffuse : vec3 K :=
    if !inShadow then mat.kd * Il * max (dot normal lightDir) 0 else vec3.splat 0
  let specular : vec3 K :=
    if !inShadow then mat.ks * Il * ops.pow (max (dot R V) 0) mat.specPower
    else vec3.splat 0
  ambient + diffuse + specular

/-- The three calls `pow(c, 1.0f / gamma)`, one per channel. -/
def gammaCorrect (ops : MathOps K) (c : vec3 K) : vec3 K :=
  ⟨ops.pow c.x (1 / gamma), ops.pow c.y (1 / gamma), ops.pow c.z (1 / gamma)⟩

/-- The body of the pixel loop of `render` in Q2 up to the three `push_back`: the final
`pixelColor` of pixel `(i, j)`. -/
def Q2.pixelColor (ops : MathOps K) (camera : Camera K) (scene : Scene K) (i j : Nat) :
    vec3 K :=
  let ray := camera.generateRay ops (i : Int) (j : Int)
  match scene.intersect ops ray with
  | some hit =>
    let pixelColor := shade ops scene ray hit
    let pixelColor := clamp pixelColor 0 1
    gammaCorrect ops pixelColor
  | none => vec3.splat 0

/-- The function `render` of Q2; the global `OutputImage` goes in and comes out. -/
def Q2.render (ops : MathOps K) (camera : Camera K) (scene : Scene K)
    (OutputImage : List K) : List K :=
  let OutputImage : List K := clear OutputImage
  (List.range Height).foldl
    (fun OutputImage j =>
      (List.range Width).foldl
        (fun OutputImage i =>
          let pixelColor := Q2.pixelColor ops camera scene i j
          push_back (push_back (push_back OutputImage pixelColor.x) pixelColor.y)
            pixelColor.z)
        OutputImage)
    OutputImage

/-- The C library generator: `RAND_MAX` and the values of the successive calls of
`rand()`. -/
structure RandSource where
  RAND_MAX : Int
  rand : Nat → Int

/-- The conversion of a `float` argument to an `int` parameter: truncation toward zero. -/
def floatToInt [FloorRing K] (a : K) : Int := if 0 ≤ a then ⌊a⌋ else ⌈a⌉

/-- The local `N` of `render` in Q3, the antialiasing sample count. -/
def Q3.N : Nat := 64

/-- The primary ray of one sample in Q3: the call
`camera.generateRay(i + rx - 0.5f, j + ry - 0.5f)`, whose parameters are `int`. -/
def Q3.sampleRay [FloorRing K] (ops : MathOps K) (camera : Camera K) (i j : Nat)
    (rx ry : K) : Ray K :=
  camera.generateRay ops (floatToInt ((i : K) + rx - 0.5)) (floatToInt ((j : K) + ry - 0.5))

/-- The body of the sample loop of `render` in Q3 after the two draws: the value of
`gammaCorrected`. -/
def Q3.sampleColor [FloorRing K] (ops : MathOps K) (camera : Camera K) (scene : Scene K)
    (i j : Nat) (rx ry : K) : vec3 K :=
  let ray := Q3.sampleRay ops camera i j rx ry
  let pixelColor : vec3 K :=
    match scene.intersect ops ray with
    | some hit => shade ops scene ray hit
    | none => vec3.splat 0
  let pixelColor := clamp pixelColor 0 1
  gammaCorrect ops pixelColor

/-- The sample loop of `render` in Q3 for pixel `(i, j)`, started when `k` calls of
`rand()` have been made: `finalColor` and the number of calls made so far. -/
def Q3.pixelColor [FloorRing K] (ops : MathOps K) (rng : RandSource) (camera : Camera K)
    (scene : Scene K) (i j : Nat) (k : Nat) : vec3 K × Nat :=
  let st := (List.range Q3.N).foldl
    (fun (st : vec3 K × Nat) _s =>
      let rx : K := (rng.rand st.2 : K) / (rng.RAND_MAX : K)
      let ry : K := (rng.rand (st.2 + 1) : K) / (rng.RAND_MAX : K)
      (st.1 + Q3.sampleColor ops camera scene i j rx ry, st.2 + 2))
    (vec3.splat 0, k)
  (st.1 / (Q3.N : K), st.2)

/-- The function `render` of Q3; the state is the global `OutputImage` and the number of
calls of `rand()` made so far. -/
def Q3.render [FloorRing K] (ops : MathOps K) (rng : RandSource) (camera : Camera K)
    (scene : Scene K) (st : List K × Nat) : List K × Nat :=
  let st : List K × Nat := (clear st.1, st.2)
  (List.range Height).foldl
    (fun st j =>
      (List.range Width).foldl
        (fun st i =>
          let px := Q3.pixelColor ops rng camera scene i j st.2
          let finalColor := px.1
          (push_back (push_back (push_back st.1 finalColor.x) finalColor.y) finalColor.z,
            px.2))
        st)
    st

/-- The material `planeMat` of `main`. -/
def planeMat : Material K := ⟨vec3.splat 0.2, vec3.splat 1, vec3.splat 0, 0⟩

/-- The material `redMat` of `main`. -/
def redMat : Material K := ⟨⟨0.2, 0, 0⟩, ⟨1, 0, 0⟩, vec3.splat 0, 0⟩

/-- The material `greenMat` of `main`. -/
def greenMat : Material K := ⟨⟨0, 0.2, 0⟩, ⟨0, 0.5, 0⟩, vec3.splat 0.5, 32⟩

/-- The material `blueMat` of `main`. -/
def blueMat : Material K := ⟨⟨0, 0, 0.2⟩, ⟨0, 0, 1⟩, vec3.splat 0, 0⟩

/-- The scene built in `main`. -/
def mainScene : Scene K :=
  ((((Scene.mk []).addObject (.plane (Plane.new (-2) planeMat))).addObject
      (.sphere (Sphere.new ⟨-4, 0, -7⟩ 1 redMat))).addObject
      (.sphere (Sphere.new ⟨0, 0, -7⟩ 2 greenMat))).addObject
    (.sphere (Sphere.new ⟨4, 0, -7⟩ 1 blueMat))

/-- The camera built in `main`. -/
def mainCamera : Camera K :=
  ⟨vec3.splat 0, ⟨1, 0, 0⟩, ⟨0, 1, 0⟩, ⟨0, 0, 1⟩, -0.1, 0.1, -0.1, 0.1, 0.1, 512, 512⟩

end Model

/-! ## Definitions used to state the properties -/

section Statements

variable {K : Type} [LinearOrderedField K]

/-- What the loop of `Scene::intersect` has established after the surfaces `l`. -/
def ScanInv (ops : MathOps K) (ray : Ray K) (l : List (Surface K))
    (st : K × Option (HitRecord K)) : Prop :=
  (st.2 = none → st.1 = FLT_MAX ∧
    ∀ obj ∈ l, ∀ t n, obj.intersect ops ray = some (t, n) → FLT_MAX ≤ t) ∧
  (∀ hit, st.2 = some hit → st.1 < FLT_MAX ∧
    ∃ (k : Nat) (obj : Surface K) (n : vec3 K),
      l[k]? = some obj ∧ obj.intersect ops ray = some (st.1, n) ∧
      (∀ (m : Nat) (obj1 : Surface K) (t1 : K) (n1 : vec3 K), l[m]? = some obj1 →
        obj1.intersect ops ray = some (t1, n1) → st.1 ≤ t1) ∧
      (∀ (m : Nat) (obj1 : Surface K) (t1 : K) (n1 : vec3 K), m < k → l[m]? = some obj1 →
        obj1.intersect ops ray = some (t1, n1) → st.1 < t1) ∧
      hit = ⟨obj.material.kd, n, obj.material, ray.origin + st.1 * ray.direction⟩)

/-- The discriminant `b^2 - 4ac` of the sphere quadratic, in the words of the
specification. -/
def sphereDisc (s : Sphere K) (ray : Ray K) : K :=
  (2 * dot (ray.origin - s.center) ray.direction) ^ 2
    - 4 * dot ray.direction ray.direction
      * (dot (ray.origin - s.center) (ray.origin - s.center) - s.radius ^ 2)

/-- The near root `(-b - sqrt disc) / (2a)`, in the words of the specification. -/
def sphereNearRoot (ops : MathOps K) (s : Sphere K) (ray : Ray K) : K :=
  (-(2 * dot (ray.origin - s.center) ray.direction) - ops.sqrtf (sphereDisc s ray))
    / (2 * dot ray.direction ray.direction)

/-- The far root `(-b + sqrt disc) / (2a)`. -/
def sphereFarRoot (ops : MathOps K) (s : Sphere K) (ray : Ray K) : K :=
  (-(2 * dot (ray.origin - s.center) ray.direction) + ops.sqrtf (sphereDisc s ray))
    / (2 * dot ray.direction ray.direction)

/-- The function `sqrtf` is an exact square root on the non-negative scalars. -/
def MathOps.ExactSqrt (ops : MathOps K) : Prop :=
  ∀ a : K, 0 ≤ a → 0 ≤ ops.sqrtf a ∧ ops.sqrtf a * ops.sqrtf a = a

/-- The image-plane vector `u * uc + v * vc - w * d` of the specification for pixel-space
coordinates `(a, b)` that may be fractional: `uc = l + (r - l) * (a + 0.5) / nx` and
`vc = b + (t - b) * (b + 0.5) / ny`. -/
def imagePlaneVector (camera : Camera K) (a b : K) : vec3 K :=
  camera.u * (camera.l + (camera.r - camera.l) * (a + 0.5) / (camera.nx : K))
    + camera.v * (camera.b + (camera.t - camera.b) * (b + 0.5) / (camera.ny : K))
    - camera.w * camera.d

/-- The shading formula of the specification for a hit with material `mat`, normal `n` and
position `p` on a primary ray of direction `rayDirection`, unit light intensities: the
clamp to `[0, 1]` of `ka + kd * max(0, n.L) + ks * max(0, R.V)^specPower` when not in
shadow, of `ka` alone when in shadow. -/
def specShade (ops : MathOps K) (mat : Material K) (n p rayDirection : vec3 K)
    (inShadow : Bool) : vec3 K :=
  if inShadow then clamp mat.ka 0 1
  else
    clamp (mat.ka
      + mat.kd * max 0 (dot n (normalize ops (lightPos - p)))
      + mat.ks * ops.pow (max 0 (dot
          (normalize ops (((2 : K) * dot n (normalize ops (lightPos - p))) * n
            - normalize ops (lightPos - p)))
          (normalize ops (-rayDirection)))) mat.specPower) 0 1

/-- The shadow test of `render`: `Scene.intersect` on the ray from `p + 0.001 * L` in
direction `L`, where `L = normalize (lightPos - p)`. -/
def inShadow (ops : MathOps K) (scene : Scene K) (p : vec3 K) : Bool :=
  (scene.intersect ops (Ray.new ops (p + (0.001 : K) * normalize ops (lightPos - p))
    (normalize ops (lightPos - p)))).isSome

/-- An example camera of one pixel at the origin that looks straight down. -/
def downCamera : Camera K :=
  ⟨⟨0, 0, 0⟩, ⟨1, 0, 0⟩, ⟨0, 0, -1⟩, ⟨0, 1, 0⟩, -1, 1, -1, 1, 1, 1, 1⟩

/-- An example scene: the plane of `main` alone. -/
def planeScene : Scene K := (Scene.mk []).addObject (.plane (Plane.new (-2) planeMat))

/-- The colour of the sample of pixel `(i, j)` whose two draws are the calls number `k`
and `k + 1` of `rand()`. -/
def Q3.sampleAt [FloorRing K] (ops : MathOps K) (rng : RandSource) (camera : Camera K)
    (scene : Scene K) (i j k : Nat) : vec3 K :=
  Q3.sampleColor ops camera scene i j ((rng.rand k : K) / (rng.RAND_MAX : K))
    ((rng.rand (k + 1) : K) / (rng.RAND_MAX : K))

/-- The function `pow` maps `[0, 1]` into `[0, 1]` for every non-negative exponent. -/
def MathOps.PowUnit (ops : MathOps K) : Prop :=
  ∀ a e : K, 0 ≤ a → a ≤ 1 → 0 ≤ e → 0 ≤ ops.pow a e ∧ ops.pow a e ≤ 1

/-- The value of `pixelColor` after the clamp, before the gamma correction, for the sample
of pixel `(i, j)` whose two draws are the calls number `k` and `k + 1` of `rand()`. -/
def Q3.clampedAt [FloorRing K] (ops : MathOps K) (rng : RandSource) (camera : Camera K)
    (scene : Scene K) (i j k : Nat) : vec3 K :=
  clamp
    (match scene.intersect ops (Q3.sampleRay ops camera i j
        ((rng.rand k : K) / (rng.RAND_MAX : K)) ((rng.rand (k + 1) : K) / (rng.RAND_MAX : K)))
      with
    | some hit => shade ops scene (Q3.sampleRay ops camera i j
        ((rng.rand k : K) / (rng.RAND_MAX : K)) ((rng.rand (k + 1) : K) / (rng.RAND_MAX : K)))
        hit
    | none => vec3.splat 0) 0 1

/-- The function `pow` gives `0` at base `0` for every positive exponent. -/
def MathOps.PowZero (ops : MathOps K) : Prop :=
  ∀ e : K, 0 < e → ops.pow 0 e = 0

/-- The statements of the pixel loop of `render` in Q2 that follow the generation of the
primary ray, as a function of that ray: the final `pixelColor`. -/
def Q2.rayColor (ops : MathOps K) (scene : Scene K) (ray : Ray K) : vec3 K :=
  match scene.intersect ops ray with
  | some hit => gammaCorrect ops (clamp (shade ops scene ray hit) 0 1)
  | none => vec3.splat 0

/-- The statements of the sample loop of `render` in Q3 that follow the generation of the
primary ray, as a function of that ray: the value of `gammaCorrected`. -/
def Q3.rayColor (ops : MathOps K) (scene : Scene K) (ray : Ray K) : vec3 K :=
  gammaCorrect ops (clamp
    (match scene.intersect ops ray with
    | some hit => shade ops scene ray hit
    | none => vec3.splat 0) 0 1)

/-- The shadow ray of `render` for the hit position `p`: the `Ray` constructed from
`p + 0.001 * lightDir` and `lightDir`, where `lightDir = normalize (lightPos - p)`. -/
def shadowRay (ops : MathOps K) (p : vec3 K) : Ray K :=
  Ray.new ops (p + (0.001 : K) * normalize ops (lightPos - p)) (normalize ops (lightPos - p))

/-- An example scene: the plane of `main` and a second plane at height `10`, above the
light. -/
def twoPlaneScene : Scene K :=
  ((Scene.mk []).addObject (.plane (Plane.new (-2) planeMat))).addObject
    (.plane (Plane.new 10 planeMat))

/-- Gamma applied to each of the 64 sample values, then the mean: the order of the
specification, `(1/64) * sum of c^(1/2.2)`. -/
def gammaThenAverage (ops : MathOps K) (cs : List K) : K :=
  (cs.map (fun c => ops.pow c (1 / gamma))).sum / 64

/-- The mean of the 64 sample values, then gamma: the other order,
`(mean of c)^(1/2.2)`. -/
def averageThenGamma (ops : MathOps K) (cs : List K) : K :=
  ops.pow (cs.sum / 64) (1 / gamma)

/-- The function `pow` is strictly increasing in its base on the non-negative scalars, for
every positive exponent. -/
def MathOps.PowStrictMono (ops : MathOps K) : Prop :=
  ∀ a b e : K, 0 ≤ a → a < b → 0 < e → ops.pow a e < ops.pow b e

/-- The ray from the origin in direction `(w / 5120, w / 5120, -(w / 10))`: the primary ray
of the camera of `main` through pixel `(256, 256)`, where `w` is one over the length of
`(1/5120, 1/5120, -1/10)`. -/
def centreRay (w : K) : Ray K := ⟨⟨0, 0, 0⟩, ⟨w / 5120, w / 5120, -(w / 10)⟩⟩

end Statements

/-! ## Properties -/

section Proofs

variable {K : Type} [LinearOrderedField K]

/-! ### Vector arithmetic -/

theorem vec3.ext_iff3 (a b : vec3 K) : a = b ↔ a.x = b.x ∧ a.y = b.y ∧ a.z = b.z := by
  cases a
  cases b
  simp

theorem vec3.zero_def : (0 : vec3 K) = ⟨0, 0, 0⟩ := rfl

theorem vec3.add_def (a b : vec3 K) : a + b = ⟨a.x + b.x, a.y + b.y, a.z + b.z⟩ := rfl

theorem vec3.sub_def (a b : vec3 K) : a - b = ⟨a.x - b.x, a.y - b.y, a.z - b.z⟩ := rfl

theorem vec3.neg_def (a : vec3 K) : -a = ⟨-a.x, -a.y, -a.z⟩ := rfl

theorem vec3.mul_def (a b : vec3 K) : a * b = ⟨a.x * b.x, a.y * b.y, a.z * b.z⟩ := rfl

theorem vec3.smul_def (s : K) (a : vec3 K) : s * a = ⟨s * a.x, s * a.y, s * a.z⟩ := rfl

theorem vec3.mul_scalar_def (a : vec3 K) (s : K) : a * s = ⟨a.x * s, a.y * s, a.z * s⟩ :=
  rfl

theorem vec3.div_scalar_def (a : vec3 K) (s : K) : a / s = ⟨a.x / s, a.y / s, a.z / s⟩ :=
  rfl

/-! ### Nearest-hit resolution -/

theorem getElem?_snoc_cases {α : Type} (l : List α) (a b : α) (m : Nat)
    (h : (l ++ [a])[m]? = some b) : l[m]? = some b ∨ (m = l.length ∧ b = a) := by
  rcases Nat.lt_trichotomy m l.length with hlt | heq | hgt
  · left
    rwa [List.getElem?_append_left hlt] at h
  · right
    subst heq
    simp at h
    exact ⟨rfl, h.symm⟩
  · exfalso
    have : (l ++ [a]).length ≤ m := by simp; omega
    rw [List.getElem?_eq_none this] at h
    exact Option.noConfusion h

theorem Surface.getPosition_eq (obj : Surface K) (ray : Ray K) (t : K) :
    obj.getPosition ray t = ray.origin + t * ray.direction := by
  cases obj <;> rfl

theorem scanInv_foldl (ops : MathOps K) (ray : Ray K) (l : List (Surface K)) :
    ScanInv ops ray l (l.foldl (Scene.intersectStep ops ray) (FLT_MAX, none)) := by
  induction l using List.reverseRecOn with
  | nil =>
    refine ⟨fun _ => ⟨rfl, ?_⟩, ?_⟩
    · intro obj hobj
      simp at hobj
    · intro hit h
      simp at h
  | append_singleton l a ih =>
    rw [List.foldl_append]
    simp only [List.foldl_cons, List.foldl_nil]
    generalize l.foldl (Scene.intersectStep ops ray) (FLT_MAX, none) = st at ih ⊢
    obtain ⟨tmin, cur⟩ := st
    obtain ⟨ihN, ihS⟩ := ih
    simp only at ihN ihS
    unfold Scene.intersectStep
    cases hres : a.intersect ops ray with
    | none =>
      simp only
      refine ⟨?_, ?_⟩
      · intro hc
        obtain ⟨h1, h2⟩ := ihN hc
        refine ⟨h1, ?_⟩
        intro obj hobj t n hi
        rcases List.mem_append.1 hobj with hm | hm
        · exact h2 obj hm t n hi
        · simp at hm
          subst hm
          rw [hres] at hi
          exact Option.noConfusion hi
      · intro hit hc
        obtain ⟨h1, k, obj, n, hk, hobj, hmin, hfirst, hrec⟩ := ihS hit hc
        refine ⟨h1, k, obj, n, ?_, hobj, ?_, ?_, hrec⟩
        · have hkl : k < l.length := (List.getElem?_eq_some_iff.1 hk).1
          rw [List.getElem?_append_left hkl]
          exact hk
        · intro m obj1 t1 n1 hm hi
          rcases getElem?_snoc_cases l a obj1 m hm with h | ⟨_, h⟩
          · exact hmin m obj1 t1 n1 h hi
          · subst h
            rw [hres] at hi
            exact Option.noConfusion hi
        · intro m obj1 t1 n1 hmk hm hi
          rcases getElem?_snoc_cases l a obj1 m hm with h | ⟨_, h⟩
          · exact hfirst m obj1 t1 n1 hmk h hi
          · subst h
            rw [hres] at hi
            exact Option.noConfusion hi
    | some res =>
      obtain ⟨t, normal⟩ := res
      simp only
      by_cases hlt : t < tmin
      · rw [if_pos hlt]
        have hbound : tmin ≤ FLT_MAX := by
          cases cur with
          | none => exact le_of_eq (ihN rfl).1
          | some h0 => exact le_of_lt (ihS h0 rfl).1
        have hothers : ∀ (m : Nat) (obj1 : Surface K) (t1 : K) (n1 : vec3 K),
            l[m]? = some obj1 →
            obj1.intersect ops ray = some (t1, n1) → tmin ≤ t1 := by
          intro m obj1 t1 n1 hm hi
          cases cur with
          | none =>
            obtain ⟨h1, h2⟩ := ihN rfl
            rw [h1]
            exact h2 obj1 (List.getElem?_mem hm) t1 n1 hi
          | some h0 =>
            obtain ⟨_, k, obj, n, _, _, hmin, _, _⟩ := ihS h0 rfl
            exact hmin m obj1 t1 n1 hm hi
        refine ⟨fun hc => Option.noConfusion hc, ?_⟩
        intro hit hc
        refine ⟨lt_of_lt_of_le hlt hbound, l.length, a, normal, by simp, hres, ?_, ?_, ?_⟩
        · intro m obj1 t1 n1 hm hi
          rcases getElem?_snoc_cases l a obj1 m hm with h | ⟨_, h⟩
          · exact le_of_lt (lt_of_lt_of_le hlt (hothers m obj1 t1 n1 h hi))
          · subst h
            rw [hres] at hi
            simp at hi
            exact le_of_eq hi.1
        · intro m obj1 t1 n1 hmk hm hi
          have h : l[m]? = some obj1 := by
            rwa [List.getElem?_append_left hmk] at hm
          exact lt_of_lt_of_le hlt (hothers m obj1 t1 n1 h hi)
        · simp only [Option.some.injEq] at hc
          rw [← hc, Surface.getPosition_eq]
      · rw [if_neg hlt]
        have hle : tmin ≤ t := not_lt.1 hlt
        refine ⟨?_, ?_⟩
        · intro hc
          obtain ⟨h1, h2⟩ := ihN hc
          refine ⟨h1, ?_⟩
          intro obj hobj t1 n1 hi
          rcases List.mem_append.1 hobj with hm | hm
          · exact h2 obj hm t1 n1 hi
          · simp at hm
            subst hm
            rw [hres] at hi
            simp at hi
            rw [← hi.1, ← h1]
            exact hle
        · intro hit hc
          obtain ⟨h1, k, obj, n, hk, hobj, hmin, hfirst, hrec⟩ := ihS hit hc
          refine ⟨h1, k, obj, n, ?_, hobj, ?_, ?_, hrec⟩
          · have hkl : k < l.length := (List.getElem?_eq_some_iff.1 hk).1
            rw [List.getElem?_append_left hkl]
            exact hk
          · intro m obj1 t1 n1 hm hi
            rcases getElem?_snoc_cases l a obj1 m hm with h | ⟨_, h⟩
            · exact hmin m obj1 t1 n1 h hi
            · subst h
              rw [hres] at hi
              simp at hi
              rw [← hi.1]
              exact hle
          · intro m obj1 t1 n1 hmk hm hi
            rcases getElem?_snoc_cases l a obj1 m hm with h | ⟨hml, _⟩
            · exact hfirst m obj1 t1 n1 hmk h hi
            · have hkl : k < l.length := (List.getElem?_eq_some_iff.1 hk).1
              omega

/-- C1: when `Scene.intersect` reports a hit, some surface of the scene (at position `k`
of the insertion order) has its own `intersect` report `(t, n)` with `t` smallest among all
surfaces that intersect the ray and strictly smaller than that of every earlier surface;
the record holds that surface's `material.kd`, its material, the normal `n` and the position
`origin + t * direction`. -/
theorem scene_intersect_nearest_first (ops : MathOps K) (scene : Scene K) (ray : Ray K)
    (hit : HitRecord K) (h : scene.intersect ops ray = some hit) :
    ∃ (k : Nat) (obj : Surface K) (t : K) (n : vec3 K),
      scene.objects[k]? = some obj ∧ obj.intersect ops ray = some (t, n) ∧
      (∀ (m : Nat) (obj1 : Surface K) (t1 : K) (n1 : vec3 K),
        scene.objects[m]? = some obj1 → obj1.intersect ops ray = some (t1, n1) → t ≤ t1) ∧
      (∀ (m : Nat) (obj1 : Surface K) (t1 : K) (n1 : vec3 K), m < k →
        scene.objects[m]? = some obj1 → obj1.intersect ops ray = some (t1, n1) → t < t1) ∧
      hit.hitColor = obj.material.kd ∧ hit.mat = obj.material ∧ hit.hitNormal = n ∧
      hit.hitPos = ray.origin + t * ray.direction := by
  obtain ⟨_, hS⟩ := scanInv_foldl ops ray scene.objects
  obtain ⟨_, k, obj, n, hk, hobj, hmin, hfirst, hrec⟩ := hS hit h
  refine ⟨k, obj, _, n, hk, hobj, hmin, hfirst, ?_⟩
  rw [hrec]
  exact ⟨rfl, rfl, rfl, rfl⟩

/-- Witness for C1: two planes at the same height, hit at the same `t = 2`; the record is
that of the first one. -/
theorem scene_intersect_nearest_first_witness :
    ∃ (k : Nat) (obj : Surface ℝ) (t : ℝ) (n : vec3 ℝ),
      (Scene.mk [Surface.plane (Plane.new (-2) planeMat),
          Surface.plane (Plane.new (-2) redMat)]).objects[k]? = some obj ∧
      obj.intersect ⟨Real.sqrt, fun a b => a ^ b⟩ ⟨⟨0, 0, 0⟩, ⟨0, -1, 0⟩⟩ = some (t, n) ∧
      (∀ (m : Nat) (obj1 : Surface ℝ) (t1 : ℝ) (n1 : vec3 ℝ),
        (Scene.mk [Surface.plane (Plane.new (-2) planeMat),
          Surface.plane (Plane.new (-2) redMat)]).objects[m]? = some obj1 →
        obj1.intersect ⟨Real.sqrt, fun a b => a ^ b⟩ ⟨⟨0, 0, 0⟩, ⟨0, -1, 0⟩⟩ = some (t1, n1) →
        t ≤ t1) ∧
      (∀ (m : Nat) (obj1 : Surface ℝ) (t1 : ℝ) (n1 : vec3 ℝ), m < k →
        (Scene.mk [Surface.plane (Plane.new (-2) planeMat),
          Surface.plane (Plane.new (-2) redMat)]).objects[m]? = some obj1 →
        obj1.intersect ⟨Real.sqrt, fun a b => a ^ b⟩ ⟨⟨0, 0, 0⟩, ⟨0, -1, 0⟩⟩ = some (t1, n1) →
        t < t1) ∧
      (HitRecord.mk (vec3.splat 1) ⟨0, 1, 0⟩ planeMat ⟨0, -2, 0⟩ : HitRecord ℝ).hitColor
        = obj.material.kd ∧
      (HitRecord.mk (vec3.splat 1) ⟨0, 1, 0⟩ planeMat ⟨0, -2, 0⟩ : HitRecord ℝ).mat
        = obj.material ∧
      (HitRecord.mk (vec3.splat 1) ⟨0, 1, 0⟩ planeMat ⟨0, -2, 0⟩ : HitRecord ℝ).hitNormal
        = n ∧
      (HitRecord.mk (vec3.splat 1) ⟨0, 1, 0⟩ planeMat ⟨0, -2, 0⟩ : HitRecord ℝ).hitPos
        = (Ray.mk ⟨0, 0, 0⟩ ⟨0, -1, 0⟩ : Ray ℝ).origin
          + t * (Ray.mk ⟨0, 0, 0⟩ ⟨0, -1, 0⟩ : Ray ℝ).direction :=
  scene_intersect_nearest_first ⟨Real.sqrt, fun a b => a ^ b⟩
    ⟨[Surface.plane (Plane.new (-2) planeMat), Surface.plane (Plane.new (-2) redMat)]⟩
    ⟨⟨0, 0, 0⟩, ⟨0, -1, 0⟩⟩ ⟨vec3.splat 1, ⟨0, 1, 0⟩, planeMat, ⟨0, -2, 0⟩⟩ (by
      simp only [Scene.intersect, List.foldl_cons, List.foldl_nil, Scene.intersectStep,
        Surface.intersect, Plane.intersect, Plane.new, Surface.material, planeMat,
        Surface.getPosition, Plane.getPosition, FLT_MAX]
      norm_num [vec3.add_def, vec3.smul_def])

/-- C2, as stated, fails: a plane at height `FLT_MAX` reports an intersection (at
`t = FLT_MAX`) with the upward ray from the origin, and `Scene.intersect` on the scene
holding that plane alone reports no hit. -/
theorem scene_intersect_misses_plane_at_FLT_MAX :
    (Surface.intersect ⟨Real.sqrt, fun a b => a ^ b⟩
        (Surface.plane (Plane.new (FLT_MAX : ℝ) planeMat))
        (Ray.new ⟨Real.sqrt, fun a b => a ^ b⟩ ⟨0, 0, 0⟩ ⟨0, 1, 0⟩)).isSome = true ∧
    Scene.intersect ⟨Real.sqrt, fun a b => a ^ b⟩
        ⟨[Surface.plane (Plane.new (FLT_MAX : ℝ) planeMat)]⟩
        (Ray.new ⟨Real.sqrt, fun a b => a ^ b⟩ ⟨0, 0, 0⟩ ⟨0, 1, 0⟩) = none := by
  constructor
  · norm_num [Surface.intersect, Plane.intersect, Plane.new, Ray.new, normalize,
      inversesqrt, dot, vec3.mul_scalar_def, FLT_MAX]
  · norm_num [Scene.intersect, Scene.intersectStep, Surface.intersect, Plane.intersect,
      Plane.new, Ray.new, normalize, inversesqrt, dot, vec3.mul_scalar_def, FLT_MAX]

/-- C2, amended: `Scene.intersect` reports a hit exactly when some surface of the scene
reports an intersection with `t < FLT_MAX`, the initial running minimum; it reports no hit
exactly when no surface does, and always for the empty scene. -/
theorem scene_intersect_hit_iff (ops : MathOps K) (scene : Scene K) (ray : Ray K) :
    ((scene.intersect ops ray).isSome = true ↔
      ∃ obj ∈ scene.objects, ∃ (t : K) (n : vec3 K),
        obj.intersect ops ray = some (t, n) ∧ t < FLT_MAX) ∧
    (scene.intersect ops ray = none ↔
      ∀ obj ∈ scene.objects, ∀ (t : K) (n : vec3 K),
        obj.intersect ops ray = some (t, n) → FLT_MAX ≤ t) ∧
    Scene.intersect ops ⟨[]⟩ ray = none := by
  obtain ⟨hN, hS⟩ := scanInv_foldl ops ray scene.objects
  have key : scene.intersect ops ray = none ↔
      ∀ obj ∈ scene.objects, ∀ (t : K) (n : vec3 K),
        obj.intersect ops ray = some (t, n) → FLT_MAX ≤ t := by
    constructor
    · intro h
      exact (hN h).2
    · intro h
      cases hres : scene.intersect ops ray with
      | none => rfl
      | some hit =>
        exfalso
        obtain ⟨hlt, k, obj, n, hk, hobj, _⟩ := hS hit hres
        exact absurd (h obj (List.getElem?_mem hk) _ n hobj) (not_le.2 hlt)
  refine ⟨?_, key, rfl⟩
  constructor
  · intro h
    cases hres : scene.intersect ops ray with
    | none =>
      rw [hres] at h
      exact absurd h (by simp)
    | some hit =>
      obtain ⟨hlt, k, obj, n, hk, hobj, _⟩ := hS hit hres
      exact ⟨obj, List.getElem?_mem hk, _, n, hobj, hlt⟩
  · rintro ⟨obj, hmem, t, n, hobj, hlt⟩
    cases hres : scene.intersect ops ray with
    | none => exact absurd ((hN hres).2 obj hmem t n hobj) (not_le.2 hlt)
    | some hit => rfl

/-! ### Surfaces -/

theorem Sphere.intersect_eq (ops : MathOps K) (s : Sphere K) (ray : Ray K) :
    s.intersect ops ray =
      if sphereDisc s ray < 0 then none
      else if sphereNearRoot ops s ray < 0 then none
      else some (sphereNearRoot ops s ray,
        normalize ops (ray.origin + sphereNearRoot ops s ray * ray.direction - s.center)) := by
  have hd : 2 * dot (ray.origin - s.center) ray.direction
        * (2 * dot (ray.origin - s.center) ray.direction)
      - 4 * dot ray.direction ray.direction
        * (dot (ray.origin - s.center) (ray.origin - s.center) - s.radius * s.radius)
      = sphereDisc s ray := by
    unfold sphereDisc
    ring
  unfold Sphere.intersect
  simp only [hd]
  rfl

/-- C3: `Sphere.intersect` reports a hit exactly when the discriminant is `>= 0` and the
near root is `>= 0`; on a hit the returned `t` is the near root and the returned normal is
`normalize (origin + t * direction - center)`. -/
theorem sphere_intersect_near_root (ops : MathOps K) (s : Sphere K) (ray : Ray K) :
    ((s.intersect ops ray).isSome = true ↔
      0 ≤ sphereDisc s ray ∧ 0 ≤ sphereNearRoot ops s ray) ∧
    ∀ (t : K) (n : vec3 K), s.intersect ops ray = some (t, n) →
      t = sphereNearRoot ops s ray ∧
      n = normalize ops (ray.origin + t * ray.direction - s.center) := by
  rw [Sphere.intersect_eq]
  by_cases h1 : sphereDisc s ray < 0
  · rw [if_pos h1]
    refine ⟨?_, ?_⟩
    · simp only [Option.isSome_none, Bool.false_eq_true, false_iff, not_and, not_le]
      intro h
      exact absurd h (not_le.2 h1)
    · intro t n h
      exact Option.noConfusion h
  · rw [if_neg h1]
    by_cases h2 : sphereNearRoot ops s ray < 0
    · rw [if_pos h2]
      refine ⟨?_, ?_⟩
      · simp only [Option.isSome_none, Bool.false_eq_true, false_iff, not_and, not_le]
        intro _
        exact h2
      · intro t n h
        exact Option.noConfusion h
    · rw [if_neg h2]
      refine ⟨?_, ?_⟩
      · simp only [Option.isSome_some, true_iff]
        exact ⟨not_lt.1 h1, not_lt.1 h2⟩
      · intro t n h
        simp only [Option.some.injEq, Prod.mk.injEq] at h
        obtain ⟨ht, hn⟩ := h
        subst ht
        exact ⟨rfl, hn.symm⟩

/-- C4: `Plane.intersect` reports no hit when the direction's `y` is zero or
`(y - origin.y) / direction.y` is negative, and otherwise a hit with that `t` and the normal
`(0, 1, 0)`; the plane at `y = -2` and the ray from a point with `y = 0` in direction
`(0, -1, 0)` give a hit at `t = 2`. -/
theorem plane_intersect_spec (ops : MathOps K) (hone : ops.sqrtf 1 = 1) (y : K)
    (mat : Material K) (ray : Ray K) (ox oz : K) :
    ((ray.direction.y = 0 ∨ (y - ray.origin.y) / ray.direction.y < 0) →
      (Plane.new y mat).intersect ray = none) ∧
    (¬ (ray.direction.y = 0 ∨ (y - ray.origin.y) / ray.direction.y < 0) →
      (Plane.new y mat).intersect ray
        = some ((y - ray.origin.y) / ray.direction.y, ⟨0, 1, 0⟩)) ∧
    (Plane.new (-2) mat).intersect (Ray.new ops ⟨ox, 0, oz⟩ ⟨0, -1, 0⟩)
      = some (2, ⟨0, 1, 0⟩) := by
  refine ⟨?_, ?_, ?_⟩
  · rintro (h | h)
    · simp [Plane.intersect, h]
    · unfold Plane.intersect
      by_cases h0 : ray.direction.y = 0
      · simp [h0]
      · simp only [Plane.new, if_neg h0, if_pos h]
  · intro h
    rw [not_or] at h
    unfold Plane.intersect
    simp only [Plane.new, if_neg h.1, if_neg h.2]
  · norm_num [Plane.intersect, Plane.new, Ray.new, normalize, inversesqrt, dot,
      vec3.mul_scalar_def, hone]

/-- Witness for C4 on the reals, with the real square root. -/
theorem plane_intersect_spec_witness :
    (Plane.new (-2 : ℝ) planeMat).intersect
        (Ray.new ⟨Real.sqrt, fun a b => a ^ b⟩ ⟨3, 0, 5⟩ ⟨0, -1, 0⟩)
      = some (2, ⟨0, 1, 0⟩) :=
  (plane_intersect_spec ⟨Real.sqrt, fun a b => a ^ b⟩ Real.sqrt_one (-2) planeMat
    ⟨⟨0, 0, 0⟩, ⟨0, -1, 0⟩⟩ 3 5).2.2

theorem real_exactSqrt : MathOps.ExactSqrt (⟨Real.sqrt, fun a b => a ^ b⟩ : MathOps ℝ) :=
  fun a ha => ⟨Real.sqrt_nonneg a, Real.mul_self_sqrt ha⟩

theorem dot_self_nonneg (v : vec3 K) : 0 ≤ dot v v := by
  unfold dot
  nlinarith [mul_self_nonneg v.x, mul_self_nonneg v.y, mul_self_nonneg v.z]

theorem MathOps.ExactSqrt.sqrtf_zero {ops : MathOps K} (h : ops.ExactSqrt) :
    ops.sqrtf 0 = 0 := by
  obtain ⟨_, h2⟩ := h 0 le_rfl
  exact mul_self_eq_zero.1 h2

theorem MathOps.ExactSqrt.sqrtf_one {ops : MathOps K} (h : ops.ExactSqrt) :
    ops.sqrtf 1 = 1 := by
  obtain ⟨h1, h2⟩ := h 1 zero_le_one
  nlinarith

theorem MathOps.ExactSqrt.sqrtf_pos {ops : MathOps K} (h : ops.ExactSqrt) {a : K}
    (ha : 0 < a) : 0 < ops.sqrtf a := by
  obtain ⟨h1, h2⟩ := h a ha.le
  rcases h1.lt_or_eq with h3 | h3
  · exact h3
  · rw [← h3] at h2
    simp at h2
    exact absurd h2 ha.ne

/-- C5: for a sphere of positive radius and a ray of unit direction whose origin is the
centre, or at a distance from the centre less than the radius, the near root is negative,
the far root is positive, and `Sphere.intersect` reports no hit. -/
theorem sphere_intersect_origin_inside (ops : MathOps K) (hsqrt : ops.ExactSqrt)
    (s : Sphere K) (ray : Ray K) (hr : 0 < s.radius)
    (hunit : dot ray.direction ray.direction = 1)
    (hin : ray.origin = s.center ∨
      ops.sqrtf (dot (ray.origin - s.center) (ray.origin - s.center)) < s.radius) :
    sphereNearRoot ops s ray < 0 ∧ 0 < sphereFarRoot ops s ray ∧
      s.intersect ops ray = none := by
  have hlen : ops.sqrtf (dot (ray.origin - s.center) (ray.origin - s.center))
      < s.radius := by
    rcases hin with h | h
    · have h0 : dot (ray.origin - s.center) (ray.origin - s.center) = 0 := by
        rw [h]
        simp [dot, vec3.sub_def]
      rw [h0, hsqrt.sqrtf_zero]
      exact hr
    · exact h
  obtain ⟨hm0, hmm⟩ := hsqrt _ (dot_self_nonneg (ray.origin - s.center))
  have hc : dot (ray.origin - s.center) (ray.origin - s.center) - s.radius ^ 2 < 0 := by
    rw [← hmm]
    nlinarith
  have hdisc : (2 * dot (ray.origin - s.center) ray.direction) ^ 2 < sphereDisc s ray := by
    unfold sphereDisc
    rw [hunit]
    nlinarith
  have hdisc0 : 0 ≤ sphereDisc s ray :=
    le_trans (sq_nonneg _) hdisc.le
  obtain ⟨hs0, hss⟩ := hsqrt _ hdisc0
  have habs : |2 * dot (ray.origin - s.center) ray.direction|
      < ops.sqrtf (sphereDisc s ray) := by
    apply abs_lt_of_sq_lt_sq _ hs0
    rw [sq (ops.sqrtf (sphereDisc s ray)), hss]
    exact hdisc
  obtain ⟨hlo, hhi⟩ := abs_lt.1 habs
  have hnear : sphereNearRoot ops s ray < 0 := by
    unfold sphereNearRoot
    rw [hunit]
    apply div_neg_of_neg_of_pos
    · linarith
    · norm_num
  have hfar : 0 < sphereFarRoot ops s ray := by
    unfold sphereFarRoot
    rw [hunit]
    apply div_pos
    · linarith
    · norm_num
  refine ⟨hnear, hfar, ?_⟩
  rw [Sphere.intersect_eq, if_neg (not_lt.2 hdisc0), if_pos hnear]

/-- Witness for C5: the middle sphere of `main` and the ray from its centre toward `-z`. -/
theorem sphere_intersect_origin_inside_witness :
    sphereNearRoot ⟨Real.sqrt, fun a b => a ^ b⟩ (Sphere.new ⟨0, 0, -7⟩ 2 greenMat)
        (⟨⟨0, 0, -7⟩, ⟨0, 0, -1⟩⟩ : Ray ℝ) < 0 ∧
    0 < sphereFarRoot ⟨Real.sqrt, fun a b => a ^ b⟩ (Sphere.new ⟨0, 0, -7⟩ 2 greenMat)
        (⟨⟨0, 0, -7⟩, ⟨0, 0, -1⟩⟩ : Ray ℝ) ∧
    (Sphere.new ⟨0, 0, -7⟩ 2 greenMat).intersect ⟨Real.sqrt, fun a b => a ^ b⟩
        (⟨⟨0, 0, -7⟩, ⟨0, 0, -1⟩⟩ : Ray ℝ) = none :=
  sphere_intersect_origin_inside ⟨Real.sqrt, fun a b => a ^ b⟩ real_exactSqrt
    (Sphere.new ⟨0, 0, -7⟩ 2 greenMat) ⟨⟨0, 0, -7⟩, ⟨0, 0, -1⟩⟩
    (by norm_num [Sphere.new]) (by norm_num [dot]) (Or.inl rfl)

/-! ### Camera -/

theorem normalize_dot_self (ops : MathOps K) (hsqrt : ops.ExactSqrt) (v : vec3 K)
    (hv : 0 < dot v v) : dot (normalize ops v) (normalize ops v) = 1 := by
  obtain ⟨_, hss⟩ := hsqrt _ hv.le
  have hs : ops.sqrtf (dot v v) ≠ 0 := (hsqrt.sqrtf_pos hv).ne'
  have hexp : dot (normalize ops v) (normalize ops v)
      = dot v v / (ops.sqrtf (dot v v) * ops.sqrtf (dot v v)) := by
    simp only [normalize, inversesqrt, dot, vec3.mul_scalar_def]
    field_simp
  rw [hexp, hss]
  exact div_self hv.ne'

theorem normalize_of_unit (ops : MathOps K) (hsqrt : ops.ExactSqrt) (v : vec3 K)
    (hv : dot v v = 1) : normalize ops v = v := by
  simp [normalize, inversesqrt, hv, hsqrt.sqrtf_one, vec3.mul_scalar_def]

theorem dot_basis_combination (u v w : vec3 K) (a b c : K) :
    dot (u * a + v * b - w * c) (u * a + v * b - w * c)
      = a ^ 2 * dot u u + b ^ 2 * dot v v + c ^ 2 * dot w w
        + 2 * a * b * dot u v - 2 * a * c * dot u w - 2 * b * c * dot v w := by
  simp only [dot, vec3.mul_scalar_def, vec3.add_def, vec3.sub_def]
  ring

/-- C6: for a camera with an orthonormal basis, `d > 0`, `nx > 0`, `ny > 0` and an integer
pixel `(i, j)`, `generateRay` returns a ray with origin `eye` and direction
`normalize (u * uc + v * vc - w * d)`, where `uc = l + (r - l) * (i + 0.5) / nx` and
`vc = b + (t - b) * (j + 0.5) / ny`; that direction has length 1 and normalizing it again,
as the `Ray` constructor does, leaves it unchanged. -/
theorem generateRay_spec (ops : MathOps K) (hsqrt : ops.ExactSqrt) (camera : Camera K)
    (i j : Int)
    (huu : dot camera.u camera.u = 1) (hvv : dot camera.v camera.v = 1)
    (hww : dot camera.w camera.w = 1) (huv : dot camera.u camera.v = 0)
    (huw : dot camera.u camera.w = 0) (hvw : dot camera.v camera.w = 0)
    (hd : 0 < camera.d) (_hnx : 0 < camera.nx) (_hny : 0 < camera.ny) :
    (camera.generateRay ops i j).origin = camera.eye ∧
    (camera.generateRay ops i j).direction
      = normalize ops
          (camera.u * (camera.l + (camera.r - camera.l) * ((i : K) + 0.5) / (camera.nx : K))
            + camera.v
              * (camera.b + (camera.t - camera.b) * ((j : K) + 0.5) / (camera.ny : K))
            - camera.w * camera.d) ∧
    ops.sqrtf (dot (camera.generateRay ops i j).direction
      (camera.generateRay ops i j).direction) = 1 ∧
    normalize ops (camera.generateRay ops i j).direction
      = (camera.generateRay ops i j).direction := by
  have hpos : 0 < dot
      (camera.u * (camera.l + (camera.r - camera.l) * ((i : K) + 0.5) / (camera.nx : K))
        + camera.v * (camera.b + (camera.t - camera.b) * ((j : K) + 0.5) / (camera.ny : K))
        - camera.w * camera.d)
      (camera.u * (camera.l + (camera.r - camera.l) * ((i : K) + 0.5) / (camera.nx : K))
        + camera.v * (camera.b + (camera.t - camera.b) * ((j : K) + 0.5) / (camera.ny : K))
        - camera.w * camera.d) := by
    rw [dot_basis_combination, huu, hvv, hww, huv, huw, hvw]
    have h1 := sq_nonneg
      (camera.l + (camera.r - camera.l) * ((i : K) + 0.5) / (camera.nx : K))
    have h2 := sq_nonneg
      (camera.b + (camera.t - camera.b) * ((j : K) + 0.5) / (camera.ny : K))
    have h3 : 0 < camera.d ^ 2 := pow_pos hd 2
    linarith
  have hunit := normalize_dot_self ops hsqrt _ hpos
  have hidem := normalize_of_unit ops hsqrt _ hunit
  have hdir : (camera.generateRay ops i j).direction
      = normalize ops
          (camera.u * (camera.l + (camera.r - camera.l) * ((i : K) + 0.5) / (camera.nx : K))
            + camera.v
              * (camera.b + (camera.t - camera.b) * ((j : K) + 0.5) / (camera.ny : K))
            - camera.w * camera.d) := by
    simp only [Camera.generateRay, Ray.new]
    exact hidem
  refine ⟨rfl, hdir, ?_, ?_⟩
  · rw [hdir, hunit, hsqrt.sqrtf_one]
  · rw [hdir]
    exact hidem

/-- Witness for C6: the camera of `main` and the image-centre pixel, on the reals. -/
theorem generateRay_spec_witness :
    ((mainCamera : Camera ℝ).generateRay ⟨Real.sqrt, fun a b => a ^ b⟩ 256 256).origin
      = (mainCamera : Camera ℝ).eye ∧
    Real.sqrt (dot
      ((mainCamera : Camera ℝ).generateRay ⟨Real.sqrt, fun a b => a ^ b⟩ 256 256).direction
      ((mainCamera : Camera ℝ).generateRay ⟨Real.sqrt, fun a b => a ^ b⟩ 256 256).direction)
      = 1 :=
  have h := generateRay_spec ⟨Real.sqrt, fun a b => a ^ b⟩ real_exactSqrt
    (mainCamera : Camera ℝ) 256 256
    (by norm_num [dot, mainCamera]) (by norm_num [dot, mainCamera])
    (by norm_num [dot, mainCamera]) (by norm_num [dot, mainCamera])
    (by norm_num [dot, mainCamera]) (by norm_num [dot, mainCamera])
    (by norm_num [mainCamera]) (by norm_num [mainCamera]) (by norm_num [mainCamera])
  ⟨h.1, h.2.2.1⟩

theorem generateRay_direction (ops : MathOps K) (hsqrt : ops.ExactSqrt) (camera : Camera K)
    (i j : Int) (hpos : 0 < dot (imagePlaneVector camera (i : K) (j : K))
      (imagePlaneVector camera (i : K) (j : K))) :
    (camera.generateRay ops i j).direction
      = normalize ops (imagePlaneVector camera (i : K) (j : K)) := by
  have hunit := normalize_dot_self ops hsqrt _ hpos
  exact normalize_of_unit ops hsqrt _ hunit

theorem floatToInt_of_nonneg [FloorRing K] (a : K) (n : Int) (h0 : 0 ≤ a) (h1 : (n : K) ≤ a)
    (h2 : a < (n : K) + 1) : floatToInt a = n := by
  unfold floatToInt
  rw [if_pos h0]
  exact Int.floor_eq_iff.2 ⟨h1, h2⟩

/-- C7, the code at the failing input: with the camera of `main` and pixel `(256, 256)`,
the jitters `(0, 0)` and `(0.25, 0.25)` both give the sample ray `generateRay(255, 255)`,
the ray through the centre of pixel `(255, 255)`; its direction has a negative `x`, while the
direction of the specification for jitter `(0, 0)`, through the image-plane point of the
coordinates `(255.5, 255.5)`, has `x = 0`. -/
theorem Q3_sampleRay_truncates_jitter :
    Q3.sampleRay ⟨Real.sqrt, fun a b => a ^ b⟩ (mainCamera : Camera ℝ) 256 256 0 0
      = (mainCamera : Camera ℝ).generateRay ⟨Real.sqrt, fun a b => a ^ b⟩ 255 255 ∧
    Q3.sampleRay ⟨Real.sqrt, fun a b => a ^ b⟩ (mainCamera : Camera ℝ) 256 256 0.25 0.25
      = (mainCamera : Camera ℝ).generateRay ⟨Real.sqrt, fun a b => a ^ b⟩ 255 255 ∧
    (Q3.sampleRay ⟨Real.sqrt, fun a b => a ^ b⟩ (mainCamera : Camera ℝ) 256 256 0
      0).direction.x < 0 ∧
    (normalize ⟨Real.sqrt, fun a b => a ^ b⟩
      (imagePlaneVector (mainCamera : Camera ℝ) ((256 : ℝ) + 0 - 0.5)
        ((256 : ℝ) + 0 - 0.5))).x = 0 := by
  have htr0 : floatToInt (((256 : Nat) : ℝ) + 0 - 0.5) = 255 :=
    floatToInt_of_nonneg _ 255 (by norm_num) (by norm_num) (by norm_num)
  have htr : floatToInt (((256 : Nat) : ℝ) + 0.25 - 0.5) = 255 :=
    floatToInt_of_nonneg _ 255 (by norm_num) (by norm_num) (by norm_num)
  have hray0 : Q3.sampleRay ⟨Real.sqrt, fun a b => a ^ b⟩ (mainCamera : Camera ℝ) 256 256
      0 0
      = (mainCamera : Camera ℝ).generateRay ⟨Real.sqrt, fun a b => a ^ b⟩ 255 255 := by
    unfold Q3.sampleRay
    rw [htr0]
  have hray : Q3.sampleRay ⟨Real.sqrt, fun a b => a ^ b⟩ (mainCamera : Camera ℝ) 256 256
      0.25 0.25
      = (mainCamera : Camera ℝ).generateRay ⟨Real.sqrt, fun a b => a ^ b⟩ 255 255 := by
    unfold Q3.sampleRay
    rw [htr]
  have hpos : (0 : ℝ) < dot (imagePlaneVector (mainCamera : Camera ℝ) ((255 : Int) : ℝ)
      ((255 : Int) : ℝ)) (imagePlaneVector (mainCamera : Camera ℝ) ((255 : Int) : ℝ)
      ((255 : Int) : ℝ)) := by
    norm_num [imagePlaneVector, mainCamera, dot, vec3.mul_scalar_def, vec3.add_def,
      vec3.sub_def, vec3.splat]
  refine ⟨hray0, hray, ?_, ?_⟩
  · rw [hray0, generateRay_direction _ real_exactSqrt _ _ _ hpos]
    have hs := real_exactSqrt.sqrtf_pos hpos
    simp only [normalize, inversesqrt, vec3.mul_scalar_def]
    apply mul_neg_of_neg_of_pos
    · norm_num [imagePlaneVector, mainCamera, vec3.mul_scalar_def, vec3.add_def,
        vec3.sub_def, vec3.splat]
    · exact one_div_pos.2 hs
  · norm_num [normalize, imagePlaneVector, mainCamera, vec3.mul_scalar_def, vec3.add_def,
      vec3.sub_def, vec3.splat]

/-! ### Shading -/

theorem clamp_shade_eq (ops : MathOps K) (scene : Scene K) (ray : Ray K)
    (hit : HitRecord K) :
    clamp (shade ops scene ray hit) 0 1
      = specShade ops hit.mat hit.hitNormal hit.hitPos ray.direction
          (inShadow ops scene hit.hitPos) := by
  unfold shade specShade inShadow
  dsimp only
  generalize (scene.intersect ops (Ray.new ops
      (hit.hitPos + (0.001 : K) * normalize ops (lightPos - hit.hitPos))
      (normalize ops (lightPos - hit.hitPos)))).isSome = sh
  cases sh
  · simp [Ia, Il, vec3.splat, vec3.mul_def, vec3.add_def, vec3.mul_scalar_def, clamp,
      max_comm]
  · simp [Ia, Il, vec3.splat, vec3.mul_def, vec3.add_def, vec3.mul_scalar_def, clamp]

/-- C8: when the primary ray of a pixel (Q2) or of a sample (Q3) hits, with record `hit`,
the colour before gamma is the formula of the specification, clamped to `[0, 1]` after the
three terms are summed, and the colour of the pixel or sample is the gamma correction of
that clamped value. -/
theorem shading_spec [FloorRing K] (ops : MathOps K) (camera : Camera K) (scene : Scene K)
    (i j : Nat) (rx ry : K) (hit2 hit3 : HitRecord K)
    (h2 : scene.intersect ops (camera.generateRay ops (i : Int) (j : Int)) = some hit2)
    (h3 : scene.intersect ops (Q3.sampleRay ops camera i j rx ry) = some hit3) :
    Q2.pixelColor ops camera scene i j
      = gammaCorrect ops (specShade ops hit2.mat hit2.hitNormal hit2.hitPos
          (camera.generateRay ops (i : Int) (j : Int)).direction
          (inShadow ops scene hit2.hitPos)) ∧
    Q3.sampleColor ops camera scene i j rx ry
      = gammaCorrect ops (specShade ops hit3.mat hit3.hitNormal hit3.hitPos
          (Q3.sampleRay ops camera i j rx ry).direction
          (inShadow ops scene hit3.hitPos)) := by
  constructor
  · unfold Q2.pixelColor
    simp only [h2]
    rw [clamp_shade_eq]
  · unfold Q3.sampleColor
    simp only [h3]
    rw [clamp_shade_eq]

theorem downCamera_generateRay :
    (downCamera : Camera ℝ).generateRay ⟨Real.sqrt, fun a b => a ^ b⟩ 0 0
      = ⟨⟨0, 0, 0⟩, ⟨0, -1, 0⟩⟩ := by
  norm_num [Camera.generateRay, downCamera, Ray.new, normalize, inversesqrt, dot,
    vec3.mul_scalar_def, vec3.add_def, vec3.sub_def]

theorem downCamera_sampleRay :
    Q3.sampleRay ⟨Real.sqrt, fun a b => a ^ b⟩ (downCamera : Camera ℝ) 0 0 0.5 0.5
      = ⟨⟨0, 0, 0⟩, ⟨0, -1, 0⟩⟩ := by
  have htr : floatToInt (((0 : Nat) : ℝ) + 0.5 - 0.5) = 0 :=
    floatToInt_of_nonneg _ 0 (by norm_num) (by norm_num) (by norm_num)
  unfold Q3.sampleRay
  rw [htr]
  exact downCamera_generateRay

theorem planeScene_intersect_down :
    (planeScene : Scene ℝ).intersect ⟨Real.sqrt, fun a b => a ^ b⟩ ⟨⟨0, 0, 0⟩, ⟨0, -1, 0⟩⟩
      = some ⟨vec3.splat 1, ⟨0, 1, 0⟩, planeMat, ⟨0, -2, 0⟩⟩ := by
  simp only [planeScene, Scene.addObject, Scene.intersect, List.nil_append, List.foldl_cons,
    List.foldl_nil, Scene.intersectStep, Surface.intersect, Plane.intersect, Plane.new,
    Surface.material, planeMat, Surface.getPosition, Plane.getPosition, FLT_MAX]
  norm_num [vec3.add_def, vec3.smul_def]

/-- Witness for C8: the one-pixel camera looking down on the plane of `main`. -/
theorem shading_spec_witness :
    Q2.pixelColor ⟨Real.sqrt, fun a b => a ^ b⟩ (downCamera : Camera ℝ) planeScene 0 0
      = gammaCorrect ⟨Real.sqrt, fun a b => a ^ b⟩
          (specShade ⟨Real.sqrt, fun a b => a ^ b⟩ planeMat ⟨0, 1, 0⟩ ⟨0, -2, 0⟩
            ((downCamera : Camera ℝ).generateRay ⟨Real.sqrt, fun a b => a ^ b⟩
              ((0 : Nat) : Int) ((0 : Nat) : Int)).direction
            (inShadow ⟨Real.sqrt, fun a b => a ^ b⟩ planeScene ⟨0, -2, 0⟩)) ∧
    Q3.sampleColor ⟨Real.sqrt, fun a b => a ^ b⟩ (downCamera : Camera ℝ) planeScene 0 0
        0.5 0.5
      = gammaCorrect ⟨Real.sqrt, fun a b => a ^ b⟩
          (specShade ⟨Real.sqrt, fun a b => a ^ b⟩ planeMat ⟨0, 1, 0⟩ ⟨0, -2, 0⟩
            (Q3.sampleRay ⟨Real.sqrt, fun a b => a ^ b⟩ (downCamera : Camera ℝ) 0 0 0.5
              0.5).direction
            (inShadow ⟨Real.sqrt, fun a b => a ^ b⟩ planeScene ⟨0, -2, 0⟩)) :=
  shading_spec ⟨Real.sqrt, fun a b => a ^ b⟩ (downCamera : Camera ℝ) planeScene 0 0 0.5 0.5
    ⟨vec3.splat 1, ⟨0, 1, 0⟩, planeMat, ⟨0, -2, 0⟩⟩
    ⟨vec3.splat 1, ⟨0, 1, 0⟩, planeMat, ⟨0, -2, 0⟩⟩
    (by
      rw [show (((0 : Nat) : Int)) = 0 from rfl, downCamera_generateRay]
      exact planeScene_intersect_down)
    (by
      rw [downCamera_sampleRay]
      exact planeScene_intersect_down)

/-! ### The loops of `render` -/

theorem foldl_append_eq_flatMap {α β : Type} (g : β → List α) (l : List β) (b0 : List α) :
    l.foldl (fun b i => b ++ g i) b0 = b0 ++ l.flatMap g := by
  induction l generalizing b0 with
  | nil => simp
  | cons a l ih => simp [ih, List.append_assoc]

theorem foldl_range_counter {β : Type} (h : β → Nat → Nat → β) (c n : Nat) (a0 : β)
    (k0 : Nat) :
    (List.range n).foldl (fun (st : β × Nat) s => (h st.1 s st.2, st.2 + c)) (a0, k0)
      = ((List.range n).foldl (fun a s => h a s (k0 + c * s)) a0, k0 + c * n) := by
  induction n with
  | zero => simp
  | succ n ih =>
    rw [List.range_succ, List.foldl_append, List.foldl_append, ih]
    simp [Nat.mul_succ, Nat.add_assoc]

theorem flatMap_range_length {α : Type} (g : Nat → List α) (m n : Nat)
    (hg : ∀ i, (g i).length = m) : ((List.range n).flatMap g).length = n * m := by
  induction n with
  | zero => simp
  | succ n ih =>
    rw [List.range_succ, List.flatMap_append, List.length_append, ih]
    simp [hg, Nat.succ_mul]

theorem flatMap_range_getElem? {α : Type} (g : Nat → List α) (m n : Nat)
    (hg : ∀ i, (g i).length = m) (i k : Nat) (hi : i < n) (hk : k < m) :
    ((List.range n).flatMap g)[i * m + k]? = (g i)[k]? := by
  induction n with
  | zero => omega
  | succ n ih =>
    rw [List.range_succ, List.flatMap_append]
    have hlen := flatMap_range_length g m n hg
    rcases Nat.lt_succ_iff_lt_or_eq.1 hi with hlt | heq
    · have hidx : i * m + k < ((List.range n).flatMap g).length := by
        rw [hlen]
        calc i * m + k < i * m + m := by omega
          _ = (i + 1) * m := by rw [Nat.succ_mul]
          _ ≤ n * m := Nat.mul_le_mul_right m hlt
      rw [List.getElem?_append_left hidx]
      exact ih hlt
    · subst heq
      have hidx : ((List.range i).flatMap g).length ≤ i * m + k := by
        rw [hlen]
        omega
      rw [List.getElem?_append_right hidx, hlen]
      simp

theorem push_back_three (b : List K) (c : vec3 K) :
    push_back (push_back (push_back b c.x) c.y) c.z = b ++ [c.x, c.y, c.z] := by
  simp [push_back]

/-- The closed form of the buffer left by `render` of Q2. -/
theorem Q2_render_eq (ops : MathOps K) (camera : Camera K) (scene : Scene K)
    (out0 : List K) :
    Q2.render ops camera scene out0
      = (List.range Height).flatMap (fun j => (List.range Width).flatMap (fun i =>
          [(Q2.pixelColor ops camera scene i j).x, (Q2.pixelColor ops camera scene i j).y,
            (Q2.pixelColor ops camera scene i j).z])) := by
  unfold Q2.render
  simp only [push_back_three, clear, foldl_append_eq_flatMap, List.nil_append]

theorem fst_eq_of_eq_mk {α β : Type} {p : α × β} {a : α} {b : β} (h : p = (a, b)) :
    p.1 = a := by
  rw [h]

theorem snd_eq_of_eq_mk {α β : Type} {p : α × β} {a : α} {b : β} (h : p = (a, b)) :
    p.2 = b := by
  rw [h]

theorem Q3.sampleLoop_eq [FloorRing K] (ops : MathOps K) (rng : RandSource)
    (camera : Camera K) (scene : Scene K) (i j : Nat) (n : Nat) (a0 : vec3 K) (k : Nat) :
    (List.range n).foldl
        (fun (st : vec3 K × Nat) _s =>
          (st.1 + Q3.sampleColor ops camera scene i j
              ((rng.rand st.2 : K) / (rng.RAND_MAX : K))
              ((rng.rand (st.2 + 1) : K) / (rng.RAND_MAX : K)),
            st.2 + 2))
        (a0, k)
      = ((List.range n).foldl
            (fun a s => a + Q3.sampleAt ops rng camera scene i j (k + 2 * s)) a0,
          k + 2 * n) :=
  foldl_range_counter
    (fun (a : vec3 K) (_s : Nat) (k1 : Nat) => a + Q3.sampleAt ops rng camera scene i j k1)
    2 n a0 k

theorem Q3.pixelColor_eq [FloorRing K] (ops : MathOps K) (rng : RandSource)
    (camera : Camera K) (scene : Scene K) (i j k : Nat) :
    Q3.pixelColor ops rng camera scene i j k
      = (((List.range Q3.N).foldl
            (fun a s => a + Q3.sampleAt ops rng camera scene i j (k + 2 * s))
            (vec3.splat 0)) / (Q3.N : K), k + 2 * Q3.N) := by
  have h := Q3.sampleLoop_eq ops rng camera scene i j Q3.N (vec3.splat 0) k
  unfold Q3.pixelColor
  exact congrArg (fun (st : vec3 K × Nat) => (st.1 / (Q3.N : K), st.2)) h

theorem Q3.pixelColor_snd [FloorRing K] (ops : MathOps K) (rng : RandSource)
    (camera : Camera K) (scene : Scene K) (i j k : Nat) :
    (Q3.pixelColor ops rng camera scene i j k).2 = k + 2 * Q3.N :=
  snd_eq_of_eq_mk (Q3.pixelColor_eq ops rng camera scene i j k)

theorem render_loops_eq (pc : Nat → Nat → Nat → vec3 K × Nat) (c W H : Nat)
    (hpc : ∀ i j k, (pc i j k).2 = k + c) (b0 : List K) (k0 : Nat) :
    (List.range H).foldl
        (fun (st : List K × Nat) j =>
          (List.range W).foldl
            (fun (st : List K × Nat) i =>
              let px := pc i j st.2
              let finalColor := px.1
              (push_back (push_back (push_back st.1 finalColor.x) finalColor.y)
                  finalColor.z,
                px.2))
            st)
        (b0, k0)
      = (b0 ++ (List.range H).flatMap (fun j => (List.range W).flatMap (fun i =>
          [(pc i j (k0 + c * W * j + c * i)).1.x, (pc i j (k0 + c * W * j + c * i)).1.y,
            (pc i j (k0 + c * W * j + c * i)).1.z])),
        k0 + c * W * H) := by
  simp only [push_back_three, hpc]
  have hinner : ∀ (j : Nat) (st : List K × Nat),
      (List.range W).foldl
        (fun (st : List K × Nat) i =>
          (st.1 ++ [(pc i j st.2).1.x, (pc i j st.2).1.y, (pc i j st.2).1.z], st.2 + c)) st
      = (st.1 ++ (List.range W).flatMap (fun i =>
            [(pc i j (st.2 + c * i)).1.x, (pc i j (st.2 + c * i)).1.y,
              (pc i j (st.2 + c * i)).1.z]),
          st.2 + c * W) := by
    intro j st
    have h := foldl_range_counter
      (fun (a : List K) (i : Nat) (k1 : Nat) =>
        a ++ [(pc i j k1).1.x, (pc i j k1).1.y, (pc i j k1).1.z])
      c W st.1 st.2
    simp only [foldl_append_eq_flatMap] at h
    exact h
  simp only [hinner]
  have houter := foldl_range_counter
    (fun (a : List K) (j : Nat) (k1 : Nat) =>
      a ++ (List.range W).flatMap (fun i =>
        [(pc i j (k1 + c * i)).1.x, (pc i j (k1 + c * i)).1.y, (pc i j (k1 + c * i)).1.z]))
    (c * W) H b0 k0
  simp only [foldl_append_eq_flatMap] at houter
  exact houter

/-- The closed form of the buffer left by `render` of Q3, started when `k0` calls of
`rand()` have been made. -/
theorem Q3_render_eq [FloorRing K] (ops : MathOps K) (rng : RandSource) (camera : Camera K)
    (scene : Scene K) (out0 : List K) (k0 : Nat) :
    Q3.render ops rng camera scene (out0, k0)
      = ((List.range Height).flatMap (fun j => (List.range Width).flatMap (fun i =>
          [(Q3.pixelColor ops rng camera scene i j
              (k0 + 2 * Q3.N * Width * j + 2 * Q3.N * i)).1.x,
            (Q3.pixelColor ops rng camera scene i j
              (k0 + 2 * Q3.N * Width * j + 2 * Q3.N * i)).1.y,
            (Q3.pixelColor ops rng camera scene i j
              (k0 + 2 * Q3.N * Width * j + 2 * Q3.N * i)).1.z])),
        k0 + 2 * Q3.N * Width * Height) := by
  have h := render_loops_eq (Q3.pixelColor ops rng camera scene) (2 * Q3.N) Width Height
    (Q3.pixelColor_snd ops rng camera scene) [] k0
  rw [List.nil_append] at h
  exact h

theorem grid_length {α : Type} (g : Nat → Nat → List α) (W H : Nat)
    (hg : ∀ i j, (g i j).length = 3) :
    ((List.range H).flatMap (fun j => (List.range W).flatMap (fun i => g i j))).length
      = W * H * 3 := by
  rw [flatMap_range_length _ (W * 3) H
    (fun j => flatMap_range_length (fun i => g i j) 3 W (fun i => hg i j))]
  ring

theorem grid_getElem? {α : Type} (g : Nat → Nat → List α) (W H : Nat)
    (hg : ∀ i j, (g i j).length = 3) (i j k : Nat) (hi : i < W) (hj : j < H) (hk : k < 3) :
    ((List.range H).flatMap (fun j => (List.range W).flatMap (fun i => g i j)))[
      3 * (j * W + i) + k]? = (g i j)[k]? := by
  have hidx : 3 * (j * W + i) + k = j * (W * 3) + (i * 3 + k) := by ring
  rw [hidx, flatMap_range_getElem? _ (W * 3) H
    (fun j => flatMap_range_length (fun i => g i j) 3 W (fun i => hg i j)) j (i * 3 + k) hj
    (by omega)]
  exact flatMap_range_getElem? (fun i => g i j) 3 W (fun i => hg i j) i k hi hk

/-- C10: `render` leaves `Width * Height * 3 = 512 * 512 * 3` entries in the buffer,
whatever the camera, the scene and the prior content, and the entries at the indices
`3 * (j * Width + i)`, `+ 1`, `+ 2` are the R, G, B of pixel `(i, j)`; in Q3 the colour of
pixel `(i, j)` is the one of the sample loop started after `2 * N * (j * Width + i)` calls
of `rand()`. -/
theorem render_buffer_layout [FloorRing K] (ops : MathOps K) (rng : RandSource)
    (camera : Camera K) (scene : Scene K) (out0 : List K) (k0 : Nat) :
    (Q2.render ops camera scene out0).length = Width * Height * 3 ∧
    (Q3.render ops rng camera scene (out0, k0)).1.length = Width * Height * 3 ∧
    Width * Height * 3 = 512 * 512 * 3 ∧
    (∀ i j : Nat, i < Width → j < Height →
      (Q2.render ops camera scene out0)[3 * (j * Width + i)]?
        = some (Q2.pixelColor ops camera scene i j).x ∧
      (Q2.render ops camera scene out0)[3 * (j * Width + i) + 1]?
        = some (Q2.pixelColor ops camera scene i j).y ∧
      (Q2.render ops camera scene out0)[3 * (j * Width + i) + 2]?
        = some (Q2.pixelColor ops camera scene i j).z) ∧
    (∀ i j : Nat, i < Width → j < Height →
      (Q3.render ops rng camera scene (out0, k0)).1[3 * (j * Width + i)]?
        = some (Q3.pixelColor ops rng camera scene i j
            (k0 + 2 * Q3.N * (j * Width + i))).1.x ∧
      (Q3.render ops rng camera scene (out0, k0)).1[3 * (j * Width + i) + 1]?
        = some (Q3.pixelColor ops rng camera scene i j
            (k0 + 2 * Q3.N * (j * Width + i))).1.y ∧
      (Q3.render ops rng camera scene (out0, k0)).1[3 * (j * Width + i) + 2]?
        = some (Q3.pixelColor ops rng camera scene i j
            (k0 + 2 * Q3.N * (j * Width + i))).1.z) := by
  have h3 := fst_eq_of_eq_mk (Q3_render_eq ops rng camera scene out0 k0)
  rw [Q2_render_eq, h3]
  refine ⟨grid_length _ _ _ (fun _ _ => rfl), grid_length _ _ _ (fun _ _ => rfl), rfl,
    ?_, ?_⟩
  · intro i j hi hj
    have h0 := grid_getElem? (fun i j =>
      [(Q2.pixelColor ops camera scene i j).x, (Q2.pixelColor ops camera scene i j).y,
        (Q2.pixelColor ops camera scene i j).z]) Width Height (fun _ _ => rfl) i j
    exact ⟨h0 0 hi hj (by omega), h0 1 hi hj (by omega), h0 2 hi hj (by omega)⟩
  · intro i j hi hj
    have hk : k0 + 2 * Q3.N * (j * Width + i)
        = k0 + 2 * Q3.N * Width * j + 2 * Q3.N * i := by ring
    rw [hk]
    have h0 := grid_getElem? (fun i j =>
      [(Q3.pixelColor ops rng camera scene i j
          (k0 + 2 * Q3.N * Width * j + 2 * Q3.N * i)).1.x,
        (Q3.pixelColor ops rng camera scene i j
          (k0 + 2 * Q3.N * Width * j + 2 * Q3.N * i)).1.y,
        (Q3.pixelColor ops rng camera scene i j
          (k0 + 2 * Q3.N * Width * j + 2 * Q3.N * i)).1.z]) Width Height (fun _ _ => rfl) i j
    exact ⟨h0 0 hi hj (by omega), h0 1 hi hj (by omega), h0 2 hi hj (by omega)⟩

/-- Witness for C10: the scene and camera of `main`, pixel `(1, 2)`, empty prior buffer. -/
theorem render_buffer_layout_witness :
    (Q2.render ⟨Real.sqrt, fun a b => a ^ b⟩ (mainCamera : Camera ℝ) mainScene []).length
      = Width * Height * 3 ∧
    (Q2.render ⟨Real.sqrt, fun a b => a ^ b⟩ (mainCamera : Camera ℝ) mainScene [])[
      3 * (2 * Width + 1)]?
      = some (Q2.pixelColor ⟨Real.sqrt, fun a b => a ^ b⟩ (mainCamera : Camera ℝ)
          mainScene 1 2).x ∧
    (Q3.render ⟨Real.sqrt, fun a b => a ^ b⟩ ⟨32767, fun n => (7919 * n + 13) % 32768⟩
      (mainCamera : Camera ℝ) mainScene ([], 0)).1[3 * (2 * Width + 1) + 2]?
      = some (Q3.pixelColor ⟨Real.sqrt, fun a b => a ^ b⟩
          ⟨32767, fun n => (7919 * n + 13) % 32768⟩ (mainCamera : Camera ℝ) mainScene 1 2
          (0 + 2 * Q3.N * (2 * Width + 1))).1.z :=
  have h := render_buffer_layout ⟨Real.sqrt, fun a b => a ^ b⟩
    ⟨32767, fun n => (7919 * n + 13) % 32768⟩ (mainCamera : Camera ℝ) mainScene [] 0
  ⟨h.1, (h.2.2.2.1 1 2 (by decide) (by decide)).1,
    (h.2.2.2.2 1 2 (by decide) (by decide)).2.2⟩

/-! ### Range of the output -/

theorem real_powUnit : MathOps.PowUnit (⟨Real.sqrt, fun a b => a ^ b⟩ : MathOps ℝ) :=
  fun _ e ha ha1 he => ⟨Real.rpow_nonneg ha e, Real.rpow_le_one ha ha1 he⟩

theorem Q3.sampleAt_eq [FloorRing K] (ops : MathOps K) (rng : RandSource)
    (camera : Camera K) (scene : Scene K) (i j k : Nat) :
    Q3.sampleAt ops rng camera scene i j k
      = gammaCorrect ops (Q3.clampedAt ops rng camera scene i j k) := rfl

theorem clamp_unit (v : vec3 K) :
    (0 ≤ (clamp v 0 1).x ∧ (clamp v 0 1).x ≤ 1) ∧ (0 ≤ (clamp v 0 1).y ∧ (clamp v 0 1).y ≤ 1) ∧
      (0 ≤ (clamp v 0 1).z ∧ (clamp v 0 1).z ≤ 1) := by
  simp [clamp]

theorem one_div_gamma_nonneg : (0 : K) ≤ 1 / gamma := by
  unfold gamma
  norm_num

theorem foldl_add_proj (π : vec3 K → K) (hπ : ∀ a b, π (a + b) = π a + π b)
    (f : Nat → vec3 K) (n : Nat) (a0 : vec3 K) :
    π ((List.range n).foldl (fun a s => a + f s) a0)
      = π a0 + ((List.range n).map (fun s => π (f s))).sum := by
  induction n with
  | zero => simp
  | succ n ih =>
    rw [List.range_succ, List.foldl_append, List.map_append, List.sum_append]
    simp [hπ, ih, add_assoc]

theorem sum_unit_bounds (l : List K) (h : ∀ a ∈ l, 0 ≤ a ∧ a ≤ 1) :
    0 ≤ l.sum ∧ l.sum ≤ (l.length : K) := by
  induction l with
  | nil => simp
  | cons a l ih =>
    have ha := h a (List.mem_cons_self a l)
    have hl := ih (fun b hb => h b (List.mem_cons_of_mem a hb))
    simp only [List.sum_cons, List.length_cons, Nat.cast_succ]
    constructor
    · linarith [ha.1, hl.1]
    · linarith [ha.2, hl.2]

theorem pow_mean_unit (ops : MathOps K) (hpow : ops.PowUnit) (cs : List K)
    (hlen : cs.length = 64) (hcs : ∀ c ∈ cs, 0 ≤ c ∧ c ≤ 1) :
    0 ≤ (cs.map (fun c => ops.pow c (1 / gamma))).sum / 64 ∧
      (cs.map (fun c => ops.pow c (1 / gamma))).sum / 64 ≤ 1 := by
  have hb := sum_unit_bounds (cs.map (fun c => ops.pow c (1 / gamma))) (by
    intro a ha
    obtain ⟨c, hc, rfl⟩ := List.mem_map.1 ha
    exact hpow c _ (hcs c hc).1 (hcs c hc).2 one_div_gamma_nonneg)
  rw [List.length_map, hlen] at hb
  have h64 : ((64 : Nat) : K) = 64 := by norm_num
  rw [h64] at hb
  constructor
  · exact div_nonneg hb.1 (by norm_num)
  · rw [div_le_one (by norm_num)]
    exact hb.2

theorem Q3.pixel_channel [FloorRing K] (ops : MathOps K) (rng : RandSource)
    (camera : Camera K) (scene : Scene K) (π : vec3 K → K)
    (hadd : ∀ a b, π (a + b) = π a + π b) (hdiv : ∀ (a : vec3 K) (s : K), π (a / s) = π a / s)
    (hzero : π (vec3.splat 0) = 0)
    (hgam : ∀ c, π (gammaCorrect ops c) = ops.pow (π c) (1 / gamma))
    (hclamp : ∀ v, 0 ≤ π (clamp v 0 1) ∧ π (clamp v 0 1) ≤ 1) (i j k : Nat) :
    ∃ cs : List K, cs.length = 64 ∧ (∀ c ∈ cs, 0 ≤ c ∧ c ≤ 1) ∧
      π (Q3.pixelColor ops rng camera scene i j k).1
        = (cs.map (fun c => ops.pow c (1 / gamma))).sum / 64 := by
  refine ⟨(List.range Q3.N).map
    (fun s => π (Q3.clampedAt ops rng camera scene i j (k + 2 * s))), ?_, ?_, ?_⟩
  · rw [List.length_map, List.length_range]
    rfl
  · intro c hc
    obtain ⟨s, _, rfl⟩ := List.mem_map.1 hc
    exact hclamp _
  · rw [fst_eq_of_eq_mk (Q3.pixelColor_eq ops rng camera scene i j k), hdiv,
      foldl_add_proj π hadd, hzero, zero_add, List.map_map]
    have h64 : ((Q3.N : Nat) : K) = 64 := by
      unfold Q3.N
      norm_num
    rw [h64]
    congr 2
    apply List.map_congr_left
    intro s _
    rw [Q3.sampleAt_eq, hgam]
    rfl

theorem Q2.pixel_channels (ops : MathOps K) (camera : Camera K) (scene : Scene K)
    (i j : Nat) (a : K)
    (ha : a = (Q2.pixelColor ops camera scene i j).x ∨
      a = (Q2.pixelColor ops camera scene i j).y ∨
      a = (Q2.pixelColor ops camera scene i j).z) :
    a = 0 ∨ ∃ c : K, 0 ≤ c ∧ c ≤ 1 ∧ a = ops.pow c (1 / gamma) := by
  unfold Q2.pixelColor at ha
  cases hres : scene.intersect ops (camera.generateRay ops (i : Int) (j : Int)) with
  | none =>
    left
    simp only [hres, vec3.splat] at ha
    rcases ha with h | h | h <;> exact h
  | some hit =>
    right
    simp only [hres, gammaCorrect] at ha
    obtain ⟨hx, hy, hz⟩ := clamp_unit
      (shade ops scene (camera.generateRay ops (i : Int) (j : Int)) hit)
    rcases ha with h | h | h
    · exact ⟨_, hx.1, hx.2, h⟩
    · exact ⟨_, hy.1, hy.2, h⟩
    · exact ⟨_, hz.1, hz.2, h⟩

/-- C9: every value that `render` writes to the output buffer lies in `[0, 1]`; in Q2 it is
`0` or `c^(1/2.2)` for some `c` in `[0, 1]`, in Q3 it is the mean of 64 values `c^(1/2.2)`
with `c` in `[0, 1]`. -/
theorem render_output_range [FloorRing K] (ops : MathOps K) (hpow : ops.PowUnit)
    (rng : RandSource) (camera : Camera K) (scene : Scene K) (out0 : List K) (k0 : Nat) :
    (∀ a ∈ Q2.render ops camera scene out0,
      (0 ≤ a ∧ a ≤ 1) ∧ (a = 0 ∨ ∃ c : K, 0 ≤ c ∧ c ≤ 1 ∧ a = ops.pow c (1 / gamma))) ∧
    (∀ a ∈ (Q3.render ops rng camera scene (out0, k0)).1,
      (0 ≤ a ∧ a ≤ 1) ∧ ∃ cs : List K, cs.length = 64 ∧ (∀ c ∈ cs, 0 ≤ c ∧ c ≤ 1) ∧
        a = (cs.map (fun c => ops.pow c (1 / gamma))).sum / 64) := by
  constructor
  · intro a ha
    rw [Q2_render_eq] at ha
    simp only [List.mem_flatMap, List.mem_range, List.mem_cons, List.mem_singleton,
      List.not_mem_nil, or_false] at ha
    obtain ⟨j, _, i, _, hch⟩ := ha
    have hform := Q2.pixel_channels ops camera scene i j a hch
    refine ⟨?_, hform⟩
    rcases hform with h0 | ⟨c, hc0, hc1, hc⟩
    · rw [h0]
      exact ⟨le_rfl, zero_le_one⟩
    · rw [hc]
      exact hpow c _ hc0 hc1 one_div_gamma_nonneg
  · intro a ha
    rw [fst_eq_of_eq_mk (Q3_render_eq ops rng camera scene out0 k0)] at ha
    simp only [List.mem_flatMap, List.mem_range, List.mem_cons, List.mem_singleton,
      List.not_mem_nil, or_false] at ha
    obtain ⟨j, _, i, _, hch⟩ := ha
    have hmean : ∃ cs : List K, cs.length = 64 ∧ (∀ c ∈ cs, 0 ≤ c ∧ c ≤ 1) ∧
        a = (cs.map (fun c => ops.pow c (1 / gamma))).sum / 64 := by
      rcases hch with h | h | h
      · rw [h]
        exact Q3.pixel_channel ops rng camera scene vec3.x (fun _ _ => rfl)
          (fun _ _ => rfl) rfl (fun _ => rfl) (fun v => (clamp_unit v).1) i j _
      · rw [h]
        exact Q3.pixel_channel ops rng camera scene vec3.y (fun _ _ => rfl)
          (fun _ _ => rfl) rfl (fun _ => rfl) (fun v => (clamp_unit v).2.1) i j _
      · rw [h]
        exact Q3.pixel_channel ops rng camera scene vec3.z (fun _ _ => rfl)
          (fun _ _ => rfl) rfl (fun _ => rfl) (fun v => (clamp_unit v).2.2) i j _
    refine ⟨?_, hmean⟩
    obtain ⟨cs, hlen, hcs, hsum⟩ := hmean
    rw [hsum]
    exact pow_mean_unit ops hpow cs hlen hcs

/-- Witness for C9: the scene and camera of `main` on the reals, with the real power. -/
theorem render_output_range_witness :
    (∀ a ∈ Q2.render ⟨Real.sqrt, fun a b => a ^ b⟩ (mainCamera : Camera ℝ) mainScene [],
      0 ≤ a ∧ a ≤ 1) ∧
    (∀ a ∈ (Q3.render ⟨Real.sqrt, fun a b => a ^ b⟩
        ⟨32767, fun n => (7919 * n + 13) % 32768⟩ (mainCamera : Camera ℝ) mainScene
        ([], 0)).1, 0 ≤ a ∧ a ≤ 1) :=
  have h := render_output_range ⟨Real.sqrt, fun a b => a ^ b⟩ real_powUnit
    ⟨32767, fun n => (7919 * n + 13) % 32768⟩ (mainCamera : Camera ℝ) mainScene [] 0
  ⟨fun a ha => (h.1 a ha).1, fun a ha => (h.2 a ha).1⟩

/-! ### Pixels whose rays miss -/

theorem real_powZero : MathOps.PowZero (⟨Real.sqrt, fun a b => a ^ b⟩ : MathOps ℝ) :=
  fun _ he => Real.zero_rpow he.ne'

theorem one_div_gamma_pos : (0 : K) < 1 / gamma := by
  unfold gamma
  norm_num

theorem Q2_render_getElem? (ops : MathOps K) (camera : Camera K) (scene : Scene K)
    (out0 : List K) (i j k : Nat) (hi : i < Width) (hj : j < Height) (hk : k < 3) :
    (Q2.render ops camera scene out0)[3 * (j * Width + i) + k]?
      = [(Q2.pixelColor ops camera scene i j).x, (Q2.pixelColor ops camera scene i j).y,
          (Q2.pixelColor ops camera scene i j).z][k]? := by
  rw [Q2_render_eq]
  exact grid_getElem? (fun i j =>
    [(Q2.pixelColor ops camera scene i j).x, (Q2.pixelColor ops camera scene i j).y,
      (Q2.pixelColor ops camera scene i j).z]) Width Height (fun _ _ => rfl) i j k hi hj hk

theorem Q3_render_getElem? [FloorRing K] (ops : MathOps K) (rng : RandSource)
    (camera : Camera K) (scene : Scene K) (out0 : List K) (k0 : Nat) (i j k : Nat)
    (hi : i < Width) (hj : j < Height) (hk : k < 3) :
    (Q3.render ops rng camera scene (out0, k0)).1[3 * (j * Width + i) + k]?
      = [(Q3.pixelColor ops rng camera scene i j (k0 + 2 * Q3.N * (j * Width + i))).1.x,
          (Q3.pixelColor ops rng camera scene i j (k0 + 2 * Q3.N * (j * Width + i))).1.y,
          (Q3.pixelColor ops rng camera scene i j (k0 + 2 * Q3.N * (j * Width + i))).1.z][
          k]? := by
  have hk0 : k0 + 2 * Q3.N * (j * Width + i)
      = k0 + 2 * Q3.N * Width * j + 2 * Q3.N * i := by ring
  rw [fst_eq_of_eq_mk (Q3_render_eq ops rng camera scene out0 k0), hk0]
  exact grid_getElem? (fun i j =>
    [(Q3.pixelColor ops rng camera scene i j
        (k0 + 2 * Q3.N * Width * j + 2 * Q3.N * i)).1.x,
      (Q3.pixelColor ops rng camera scene i j
        (k0 + 2 * Q3.N * Width * j + 2 * Q3.N * i)).1.y,
      (Q3.pixelColor ops rng camera scene i j
        (k0 + 2 * Q3.N * Width * j + 2 * Q3.N * i)).1.z]) Width Height (fun _ _ => rfl)
    i j k hi hj hk

theorem vec3.add_splat_zero (a : vec3 K) : a + vec3.splat 0 = a := by
  cases a
  simp [vec3.add_def, vec3.splat]

theorem foldl_add_all_zero (f : Nat → vec3 K) (n : Nat) (a0 : vec3 K)
    (hf : ∀ s, s < n → f s = vec3.splat 0) :
    (List.range n).foldl (fun a s => a + f s) a0 = a0 := by
  induction n with
  | zero => simp
  | succ n ih =>
    rw [List.range_succ, List.foldl_append, ih (fun s hs => hf s (Nat.lt_succ_of_lt hs))]
    simp only [List.foldl_cons, List.foldl_nil]
    rw [hf n (Nat.lt_succ_self n), vec3.add_splat_zero]

theorem Q3.sampleColor_miss [FloorRing K] (ops : MathOps K) (hzero : ops.PowZero)
    (camera : Camera K) (scene : Scene K) (i j : Nat) (rx ry : K)
    (hmiss : scene.intersect ops (Q3.sampleRay ops camera i j rx ry) = none) :
    Q3.sampleColor ops camera scene i j rx ry = vec3.splat 0 := by
  unfold Q3.sampleColor
  simp only [hmiss]
  have h0 : ops.pow 0 (1 / gamma) = 0 := hzero _ one_div_gamma_pos
  simp only [gammaCorrect, clamp, vec3.splat, max_self, min_eq_left zero_le_one, h0]

theorem Q3.pixelColor_miss [FloorRing K] (ops : MathOps K) (hzero : ops.PowZero)
    (rng : RandSource) (camera : Camera K) (scene : Scene K) (i j k : Nat)
    (hmiss : ∀ s, s < Q3.N → scene.intersect ops (Q3.sampleRay ops camera i j
      ((rng.rand (k + 2 * s) : K) / (rng.RAND_MAX : K))
      ((rng.rand (k + 2 * s + 1) : K) / (rng.RAND_MAX : K))) = none) :
    (Q3.pixelColor ops rng camera scene i j k).1 = ⟨0, 0, 0⟩ := by
  rw [fst_eq_of_eq_mk (Q3.pixelColor_eq ops rng camera scene i j k),
    foldl_add_all_zero (fun s => Q3.sampleAt ops rng camera scene i j (k + 2 * s)) _ _
      (fun s hs => Q3.sampleColor_miss ops hzero camera scene i j _ _ (hmiss s hs))]
  simp [vec3.div_scalar_def, vec3.splat]

/-- C11: a pixel whose primary ray gets no hit from `Scene.intersect` (in Q3: all 64 of its
sample rays get none) has the colour `(0, 0, 0)`, and the three buffer entries of the pixel
are `0`; in Q3 the miss colour goes through the clamp and `pow(0, 1/2.2)`, which is `0`. -/
theorem miss_pixel_is_black [FloorRing K] (ops : MathOps K) (hzero : ops.PowZero)
    (rng : RandSource) (camera : Camera K) (scene : Scene K) (out0 : List K) (k0 : Nat)
    (i j : Nat) (hi : i < Width) (hj : j < Height) :
    (scene.intersect ops (camera.generateRay ops (i : Int) (j : Int)) = none →
      Q2.pixelColor ops camera scene i j = ⟨0, 0, 0⟩ ∧
      (Q2.render ops camera scene out0)[3 * (j * Width + i)]? = some 0 ∧
      (Q2.render ops camera scene out0)[3 * (j * Width + i) + 1]? = some 0 ∧
      (Q2.render ops camera scene out0)[3 * (j * Width + i) + 2]? = some 0) ∧
    ((∀ s, s < Q3.N → scene.intersect ops (Q3.sampleRay ops camera i j
        ((rng.rand (k0 + 2 * Q3.N * (j * Width + i) + 2 * s) : K) / (rng.RAND_MAX : K))
        ((rng.rand (k0 + 2 * Q3.N * (j * Width + i) + 2 * s + 1) : K)
          / (rng.RAND_MAX : K))) = none) →
      (Q3.pixelColor ops rng camera scene i j (k0 + 2 * Q3.N * (j * Width + i))).1
        = ⟨0, 0, 0⟩ ∧
      (Q3.render ops rng camera scene (out0, k0)).1[3 * (j * Width + i)]? = some 0 ∧
      (Q3.render ops rng camera scene (out0, k0)).1[3 * (j * Width + i) + 1]? = some 0 ∧
      (Q3.render ops rng camera scene (out0, k0)).1[3 * (j * Width + i) + 2]? = some 0) := by
  constructor
  · intro hmiss
    have hpx : Q2.pixelColor ops camera scene i j = ⟨0, 0, 0⟩ := by
      unfold Q2.pixelColor
      simp only [hmiss]
      rfl
    have h0 := Q2_render_getElem? ops camera scene out0 i j 0 hi hj (by omega)
    have h1 := Q2_render_getElem? ops camera scene out0 i j 1 hi hj (by omega)
    have h2 := Q2_render_getElem? ops camera scene out0 i j 2 hi hj (by omega)
    rw [hpx] at h0 h1 h2
    exact ⟨hpx, h0, h1, h2⟩
  · intro hmiss
    have hpx := Q3.pixelColor_miss ops hzero rng camera scene i j _ hmiss
    have h0 := Q3_render_getElem? ops rng camera scene out0 k0 i j 0 hi hj (by omega)
    have h1 := Q3_render_getElem? ops rng camera scene out0 k0 i j 1 hi hj (by omega)
    have h2 := Q3_render_getElem? ops rng camera scene out0 k0 i j 2 hi hj (by omega)
    rw [hpx] at h0 h1 h2
    exact ⟨hpx, h0, h1, h2⟩

/-- Witness for C11: the camera of `main`, the empty scene and the corner pixel
`(0, 511)`. -/
theorem miss_pixel_is_black_witness :
    Q2.pixelColor ⟨Real.sqrt, fun a b => a ^ b⟩ (mainCamera : Camera ℝ) ⟨[]⟩ 0 511
      = ⟨0, 0, 0⟩ ∧
    (Q3.pixelColor ⟨Real.sqrt, fun a b => a ^ b⟩ ⟨32767, fun n => (7919 * n + 13) % 32768⟩
      (mainCamera : Camera ℝ) ⟨[]⟩ 0 511 (0 + 2 * Q3.N * (511 * Width + 0))).1
      = ⟨0, 0, 0⟩ ∧
    (Q3.render ⟨Real.sqrt, fun a b => a ^ b⟩ ⟨32767, fun n => (7919 * n + 13) % 32768⟩
      (mainCamera : Camera ℝ) ⟨[]⟩ ([], 0)).1[3 * (511 * Width + 0) + 1]? = some 0 :=
  have h := miss_pixel_is_black ⟨Real.sqrt, fun a b => a ^ b⟩ real_powZero
    ⟨32767, fun n => (7919 * n + 13) % 32768⟩ (mainCamera : Camera ℝ) ⟨[]⟩ [] 0 0 511
    (by decide) (by decide)
  ⟨(h.1 rfl).1, (h.2 (fun _ _ => rfl)).1, (h.2 (fun _ _ => rfl)).2.2.1⟩

/-! ### The invariant of `Ray` -/

theorem dot_self_pos_of_ne_zero (d : vec3 K) (hd : d ≠ ⟨0, 0, 0⟩) : 0 < dot d d := by
  rcases (dot_self_nonneg d).lt_or_eq with h | h
  · exact h
  · exfalso
    apply hd
    unfold dot at h
    have hx : d.x = 0 := by
      nlinarith [mul_self_nonneg d.x, mul_self_nonneg d.y, mul_self_nonneg d.z]
    have hy : d.y = 0 := by
      nlinarith [mul_self_nonneg d.x, mul_self_nonneg d.y, mul_self_nonneg d.z]
    have hz : d.z = 0 := by
      nlinarith [mul_self_nonneg d.x, mul_self_nonneg d.y, mul_self_nonneg d.z]
    rw [vec3.ext_iff3]
    exact ⟨hx, hy, hz⟩

/-- C13, as stated, fails: the `Ray` constructed from the direction `(0, 0, 0)` has the
direction `(0, 0, 0)`, of length `0`. -/
theorem ray_new_zero_direction :
    (Ray.new ⟨Real.sqrt, fun a b => a ^ b⟩ (⟨1, 2, 3⟩ : vec3 ℝ) ⟨0, 0, 0⟩).direction
      = ⟨0, 0, 0⟩ ∧
    Real.sqrt (dot
      (Ray.new ⟨Real.sqrt, fun a b => a ^ b⟩ (⟨1, 2, 3⟩ : vec3 ℝ) ⟨0, 0, 0⟩).direction
      (Ray.new ⟨Real.sqrt, fun a b => a ^ b⟩ (⟨1, 2, 3⟩ : vec3 ℝ) ⟨0, 0, 0⟩).direction)
      = 0 := by
  have hdir : (Ray.new ⟨Real.sqrt, fun a b => a ^ b⟩ (⟨1, 2, 3⟩ : vec3 ℝ)
      ⟨0, 0, 0⟩).direction = ⟨0, 0, 0⟩ := by
    simp [Ray.new, normalize, vec3.mul_scalar_def]
  rw [hdir]
  refine ⟨rfl, ?_⟩
  simp [dot]

/-- C13, amended: for every origin `o` and every direction `d` other than `(0, 0, 0)`, the
`Ray` constructed from `(o, d)` has origin `o` and a direction of length 1; so has the
shadow ray built from `lightDir` at every hit position other than the light's. -/
theorem ray_new_unit_direction (ops : MathOps K) (hsqrt : ops.ExactSqrt) (o d : vec3 K)
    (hd : d ≠ ⟨0, 0, 0⟩) :
    (Ray.new ops o d).origin = o ∧
    ops.sqrtf (dot (Ray.new ops o d).direction (Ray.new ops o d).direction) = 1 ∧
    (o ≠ lightPos →
      ops.sqrtf (dot
        (Ray.new ops (o + (0.001 : K) * normalize ops (lightPos - o))
          (normalize ops (lightPos - o))).direction
        (Ray.new ops (o + (0.001 : K) * normalize ops (lightPos - o))
          (normalize ops (lightPos - o))).direction) = 1) := by
  refine ⟨rfl, ?_, ?_⟩
  · show ops.sqrtf (dot (normalize ops d) (normalize ops d)) = 1
    rw [normalize_dot_self ops hsqrt d (dot_self_pos_of_ne_zero d hd), hsqrt.sqrtf_one]
  · intro ho
    have hne : lightPos - o ≠ (⟨0, 0, 0⟩ : vec3 K) := by
      intro h
      apply ho
      rw [vec3.sub_def, vec3.ext_iff3] at h
      rw [vec3.ext_iff3]
      exact ⟨(sub_eq_zero.1 h.1).symm, (sub_eq_zero.1 h.2.1).symm,
        (sub_eq_zero.1 h.2.2).symm⟩
    have hL := normalize_dot_self ops hsqrt _ (dot_self_pos_of_ne_zero _ hne)
    show ops.sqrtf (dot (normalize ops (normalize ops (lightPos - o)))
      (normalize ops (normalize ops (lightPos - o)))) = 1
    rw [normalize_of_unit ops hsqrt _ hL, hL, hsqrt.sqrtf_one]

/-- Witness for C13: the ray from `(1, 2, 3)` in direction `(3, 0, 4)`. -/
theorem ray_new_unit_direction_witness :
    (Ray.new ⟨Real.sqrt, fun a b => a ^ b⟩ (⟨1, 2, 3⟩ : vec3 ℝ) ⟨3, 0, 4⟩).origin
      = ⟨1, 2, 3⟩ ∧
    Real.sqrt (dot
      (Ray.new ⟨Real.sqrt, fun a b => a ^ b⟩ (⟨1, 2, 3⟩ : vec3 ℝ) ⟨3, 0, 4⟩).direction
      (Ray.new ⟨Real.sqrt, fun a b => a ^ b⟩ (⟨1, 2, 3⟩ : vec3 ℝ) ⟨3, 0, 4⟩).direction)
      = 1 :=
  have h := ray_new_unit_direction ⟨Real.sqrt, fun a b => a ^ b⟩ real_exactSqrt
    (⟨1, 2, 3⟩ : vec3 ℝ) ⟨3, 0, 4⟩ (by
      intro h
      rw [vec3.ext_iff3] at h
      norm_num at h)
  ⟨h.1, h.2.1⟩

/-! ### Rendering twice -/

/-- C15: the buffer left by `render` of Q2 is the same for every prior content of the
buffer, so rendering the same camera and scene twice in succession leaves the buffer of
rendering once. -/
theorem Q2_render_ignores_prior (ops : MathOps K) (camera : Camera K) (scene : Scene K)
    (out0 out1 : List K) :
    Q2.render ops camera scene out0 = Q2.render ops camera scene out1 ∧
    Q2.render ops camera scene (Q2.render ops camera scene out0)
      = Q2.render ops camera scene out0 := by
  constructor
  · rw [Q2_render_eq, Q2_render_eq]
  · rw [Q2_render_eq ops camera scene (Q2.render ops camera scene out0), Q2_render_eq]

/-! ### The two renderers compared -/

theorem floatToInt_natCast [FloorRing K] (i : Nat) : floatToInt ((i : K)) = (i : Int) := by
  unfold floatToInt
  rw [if_pos (Nat.cast_nonneg i)]
  exact Int.floor_natCast i

theorem Q2.pixelColor_eq_rayColor (ops : MathOps K) (camera : Camera K) (scene : Scene K)
    (i j : Nat) :
    Q2.pixelColor ops camera scene i j
      = Q2.rayColor ops scene (camera.generateRay ops (i : Int) (j : Int)) := by
  unfold Q2.pixelColor Q2.rayColor
  dsimp only

theorem Q3.sampleColor_eq_rayColor [FloorRing K] (ops : MathOps K) (camera : Camera K)
    (scene : Scene K) (i j : Nat) (rx ry : K) :
    Q3.sampleColor ops camera scene i j rx ry
      = Q3.rayColor ops scene (Q3.sampleRay ops camera i j rx ry) := rfl

theorem Q3.rayColor_eq (ops : MathOps K) (hzero : ops.PowZero) (scene : Scene K)
    (ray : Ray K) : Q3.rayColor ops scene ray = Q2.rayColor ops scene ray := by
  unfold Q3.rayColor Q2.rayColor
  cases scene.intersect ops ray with
  | some hit => rfl
  | none =>
    have h0 : ops.pow 0 (1 / gamma) = 0 := hzero _ one_div_gamma_pos
    simp only [gammaCorrect, clamp, vec3.splat, max_self, min_eq_left zero_le_one, h0]

/-- C18: the colour that Q3 computes for one sample of pixel `(i, j)` with jitter
`(0.5, 0.5)` is the colour that Q2 computes for pixel `(i, j)`: the sample ray is
`generateRay(i, j)` and the two per-ray colour functions agree on every ray, on the no-hit
path because the clamp and `pow(0, 1/2.2)` of Q3 give `0`. -/
theorem centre_sample_matches_Q2 [FloorRing K] (ops : MathOps K) (hzero : ops.PowZero)
    (camera : Camera K) (scene : Scene K) (i j : Nat) :
    Q3.sampleColor ops camera scene i j 0.5 0.5 = Q2.pixelColor ops camera scene i j ∧
    Q3.sampleRay ops camera i j 0.5 0.5 = camera.generateRay ops (i : Int) (j : Int) ∧
    (∀ ray : Ray K, Q3.rayColor ops scene ray = Q2.rayColor ops scene ray) ∧
    (∀ rx ry : K, Q3.sampleColor ops camera scene i j rx ry
      = Q3.rayColor ops scene (Q3.sampleRay ops camera i j rx ry)) ∧
    Q2.pixelColor ops camera scene i j
      = Q2.rayColor ops scene (camera.generateRay ops (i : Int) (j : Int)) := by
  have hi : (i : K) + 0.5 - 0.5 = (i : K) := by ring
  have hj : (j : K) + 0.5 - 0.5 = (j : K) := by ring
  have hray : Q3.sampleRay ops camera i j 0.5 0.5
      = camera.generateRay ops (i : Int) (j : Int) := by
    unfold Q3.sampleRay
    rw [hi, hj, floatToInt_natCast, floatToInt_natCast]
  refine ⟨?_, hray, Q3.rayColor_eq ops hzero scene, fun _ _ => rfl,
    Q2.pixelColor_eq_rayColor ops camera scene i j⟩
  rw [Q3.sampleColor_eq_rayColor, hray, Q3.rayColor_eq ops hzero,
    Q2.pixelColor_eq_rayColor]

/-- Witness for C18: the camera and scene of `main`, the image-centre pixel, on the reals
with the real power. -/
theorem centre_sample_matches_Q2_witness :
    Q3.sampleColor ⟨Real.sqrt, fun a b => a ^ b⟩ (mainCamera : Camera ℝ) mainScene 256 256
        0.5 0.5
      = Q2.pixelColor ⟨Real.sqrt, fun a b => a ^ b⟩ (mainCamera : Camera ℝ) mainScene 256
          256 :=
  (centre_sample_matches_Q2 ⟨Real.sqrt, fun a b => a ^ b⟩ real_powZero
    (mainCamera : Camera ℝ) mainScene 256 256).1

/-! ### Truncation of the jittered coordinates -/

theorem floatToInt_jitter [FloorRing K] (i : Nat) (rx : K) (h0 : 0 ≤ rx) (h1 : rx ≤ 1) :
    floatToInt ((i : K) + rx - 0.5)
      = if 0.5 ≤ rx ∨ i = 0 then (i : Int) else (i : Int) - 1 := by
  by_cases hrx : (0.5 : K) ≤ rx
  · rw [if_pos (Or.inl hrx)]
    apply floatToInt_of_nonneg
    · have : (0 : K) ≤ (i : K) := Nat.cast_nonneg i
      linarith
    · push_cast
      linarith
    · push_cast
      norm_num at hrx ⊢
      linarith
  · rw [not_le] at hrx
    rcases Nat.eq_zero_or_pos i with hi | hi
    · rw [if_pos (Or.inr hi), hi]
      unfold floatToInt
      have hneg : ¬ (0 : K) ≤ ((0 : Nat) : K) + rx - 0.5 := by
        push_cast
        norm_num at hrx ⊢
        linarith
      rw [if_neg hneg]
      rw [Int.ceil_eq_iff]
      push_cast
      norm_num at hrx ⊢
      constructor <;> linarith
    · have hne : ¬ (0.5 ≤ rx ∨ i = 0) := by
        rintro (h | h)
        · exact absurd h (not_le.2 hrx)
        · omega
      rw [if_neg hne]
      have h1i : (1 : K) ≤ (i : K) := by exact_mod_cast hi
      apply floatToInt_of_nonneg
      · norm_num at hrx ⊢
        linarith
      · push_cast
        norm_num at hrx ⊢
        linarith
      · push_cast
        norm_num at hrx ⊢
        linarith

/-- C20: for a pixel `(i, j)` and a jitter `rx, ry` in `[0, 1]`, the primary ray of the
sample is `generateRay(i1, j1)` with `i1 = i` if `rx >= 0.5` or `i = 0` and `i1 = i - 1`
otherwise, and likewise `j1`: the ray through the centre of one of the at most four pixels
`(i or i - 1, j or j - 1)`. -/
theorem sampleRay_truncates [FloorRing K] (ops : MathOps K) (camera : Camera K)
    (i j : Nat) (rx ry : K) (hrx0 : 0 ≤ rx) (hrx1 : rx ≤ 1) (hry0 : 0 ≤ ry)
    (hry1 : ry ≤ 1) :
    Q3.sampleRay ops camera i j rx ry
      = camera.generateRay ops (if 0.5 ≤ rx ∨ i = 0 then (i : Int) else (i : Int) - 1)
          (if 0.5 ≤ ry ∨ j = 0 then (j : Int) else (j : Int) - 1) ∧
    ∃ a b : Int, (a = (i : Int) ∨ a = (i : Int) - 1) ∧ (b = (j : Int) ∨ b = (j : Int) - 1) ∧
      Q3.sampleRay ops camera i j rx ry = camera.generateRay ops a b := by
  have h : Q3.sampleRay ops camera i j rx ry
      = camera.generateRay ops (if 0.5 ≤ rx ∨ i = 0 then (i : Int) else (i : Int) - 1)
          (if 0.5 ≤ ry ∨ j = 0 then (j : Int) else (j : Int) - 1) := by
    unfold Q3.sampleRay
    rw [floatToInt_jitter i rx hrx0 hrx1, floatToInt_jitter j ry hry0 hry1]
  refine ⟨h, _, _, ?_, ?_, h⟩
  · by_cases hc : 0.5 ≤ rx ∨ i = 0
    · rw [if_pos hc]
      exact Or.inl rfl
    · rw [if_neg hc]
      exact Or.inr rfl
  · by_cases hc : 0.5 ≤ ry ∨ j = 0
    · rw [if_pos hc]
      exact Or.inl rfl
    · rw [if_neg hc]
      exact Or.inr rfl

/-- Witness for C20: the camera of `main`, pixel `(256, 0)`, jitter `(0.25, 0.25)`: the
sample ray is `generateRay(255, 0)`. -/
theorem sampleRay_truncates_witness :
    Q3.sampleRay ⟨Real.sqrt, fun a b => a ^ b⟩ (mainCamera : Camera ℝ) 256 0 0.25 0.25
      = (mainCamera : Camera ℝ).generateRay ⟨Real.sqrt, fun a b => a ^ b⟩
          (if (0.5 : ℝ) ≤ 0.25 ∨ 256 = 0 then ((256 : Nat) : Int) else ((256 : Nat) : Int) - 1)
          (if (0.5 : ℝ) ≤ 0.25 ∨ 0 = 0 then ((0 : Nat) : Int) else ((0 : Nat) : Int) - 1) :=
  (sampleRay_truncates ⟨Real.sqrt, fun a b => a ^ b⟩ (mainCamera : Camera ℝ) 256 0 0.25
    0.25 (by norm_num) (by norm_num) (by norm_num) (by norm_num)).1

/-! ### The point of a sphere hit -/

theorem sphere_point_quadratic (s : Sphere K) (ray : Ray K) (τ : K)
    (hunit : dot ray.direction ray.direction = 1) :
    dot (ray.origin + τ * ray.direction - s.center) (ray.origin + τ * ray.direction - s.center)
        - s.radius ^ 2
      = τ ^ 2 + 2 * dot (ray.origin - s.center) ray.direction * τ
        + (dot (ray.origin - s.center) (ray.origin - s.center) - s.radius ^ 2) := by
  have h : dot (ray.origin + τ * ray.direction - s.center)
      (ray.origin + τ * ray.direction - s.center)
      = τ ^ 2 * dot ray.direction ray.direction
        + 2 * dot (ray.origin - s.center) ray.direction * τ
        + dot (ray.origin - s.center) (ray.origin - s.center) := by
    simp only [dot, vec3.add_def, vec3.sub_def, vec3.smul_def]
    ring
  rw [h, hunit]
  ring

theorem MathOps.ExactSqrt.sqrtf_sq {ops : MathOps K} (h : ops.ExactSqrt) {r : K}
    (hr : 0 < r) : ops.sqrtf (r ^ 2) = r := by
  obtain ⟨h1, h2⟩ := h (r ^ 2) (sq_nonneg r)
  have h3 : (ops.sqrtf (r ^ 2) - r) * (ops.sqrtf (r ^ 2) + r) = 0 := by
    ring_nf
    ring_nf at h2
    linarith
  rcases mul_eq_zero.1 h3 with h4 | h4
  · linarith
  · linarith

/-- C19: for a sphere of positive radius and a ray of unit direction, a hit reported by
`Sphere.intersect` with parameter `t` has `t >= 0`, the point `origin + t * direction` is at
distance `radius` from the centre, and no `t1` with `0 <= t1 < t` gives a point of the ray
at that distance. -/
theorem sphere_hit_is_first_point (ops : MathOps K) (hsqrt : ops.ExactSqrt) (s : Sphere K)
    (ray : Ray K) (hr : 0 < s.radius) (hunit : dot ray.direction ray.direction = 1)
    (t : K) (n : vec3 K) (h : s.intersect ops ray = some (t, n)) :
    0 ≤ t ∧
    ops.sqrtf (dot (ray.origin + t * ray.direction - s.center)
      (ray.origin + t * ray.direction - s.center)) = s.radius ∧
    dot (ray.origin + t * ray.direction - s.center)
      (ray.origin + t * ray.direction - s.center) = s.radius ^ 2 ∧
    ∀ t1 : K, 0 ≤ t1 → t1 < t →
      dot (ray.origin + t1 * ray.direction - s.center)
        (ray.origin + t1 * ray.direction - s.center) ≠ s.radius ^ 2 ∧
      ops.sqrtf (dot (ray.origin + t1 * ray.direction - s.center)
        (ray.origin + t1 * ray.direction - s.center)) ≠ s.radius := by
  rw [Sphere.intersect_eq] at h
  by_cases h1 : sphereDisc s ray < 0
  · rw [if_pos h1] at h
    exact Option.noConfusion h
  rw [if_neg h1] at h
  by_cases h2 : sphereNearRoot ops s ray < 0
  · rw [if_pos h2] at h
    exact Option.noConfusion h
  rw [if_neg h2] at h
  simp only [Option.some.injEq, Prod.mk.injEq] at h
  obtain ⟨ht, _⟩ := h
  obtain ⟨hs0, hss⟩ := hsqrt _ (not_lt.1 h1)
  have hdisc : sphereDisc s ray
      = (2 * dot (ray.origin - s.center) ray.direction) ^ 2
        - 4 * (dot (ray.origin - s.center) (ray.origin - s.center) - s.radius ^ 2) := by
    unfold sphereDisc
    rw [hunit]
    ring
  have htv : t = (-(2 * dot (ray.origin - s.center) ray.direction)
      - ops.sqrtf (sphereDisc s ray)) / 2 := by
    rw [← ht]
    unfold sphereNearRoot
    rw [hunit]
    norm_num
  have hon : dot (ray.origin + t * ray.direction - s.center)
      (ray.origin + t * ray.direction - s.center) = s.radius ^ 2 := by
    have hq := sphere_point_quadratic s ray t hunit
    have hz : t ^ 2 + 2 * dot (ray.origin - s.center) ray.direction * t
        + (dot (ray.origin - s.center) (ray.origin - s.center) - s.radius ^ 2) = 0 := by
      rw [htv]
      nlinarith [hss, hdisc]
    linarith
  refine ⟨ht ▸ not_lt.1 h2, ?_, hon, ?_⟩
  · rw [hon]
    exact hsqrt.sqrtf_sq hr
  · intro t1 _ ht1
    have hne : dot (ray.origin + t1 * ray.direction - s.center)
        (ray.origin + t1 * ray.direction - s.center) ≠ s.radius ^ 2 := by
      intro hcon
      have hq := sphere_point_quadratic s ray t1 hunit
      have hfac : t1 ^ 2 + 2 * dot (ray.origin - s.center) ray.direction * t1
          + (dot (ray.origin - s.center) (ray.origin - s.center) - s.radius ^ 2)
          = (t - t1) * (t - t1 + ops.sqrtf (sphereDisc s ray)) := by
        rw [htv]
        nlinarith [hss, hdisc]
      have hpos : 0 < (t - t1) * (t - t1 + ops.sqrtf (sphereDisc s ray)) :=
        mul_pos (by linarith) (by linarith)
      linarith
    refine ⟨hne, ?_⟩
    intro hcon
    apply hne
    obtain ⟨_, hmm⟩ := hsqrt _ (dot_self_nonneg (ray.origin + t1 * ray.direction - s.center))
    rw [hcon] at hmm
    rw [← hmm]
    ring

theorem greenSphere_disc_down :
    sphereDisc (Sphere.new (⟨0, 0, -7⟩ : vec3 ℝ) 2 greenMat) ⟨⟨0, 0, 0⟩, ⟨0, 0, -1⟩⟩ = 16 := by
  norm_num [sphereDisc, Sphere.new, dot, vec3.sub_def]

theorem real_sqrt_sixteen : Real.sqrt 16 = 4 := by
  rw [show (16 : ℝ) = 4 ^ 2 by norm_num]
  exact Real.sqrt_sq (by norm_num)

theorem greenSphere_nearRoot_down :
    sphereNearRoot ⟨Real.sqrt, fun a b => a ^ b⟩ (Sphere.new (⟨0, 0, -7⟩ : vec3 ℝ) 2 greenMat)
      ⟨⟨0, 0, 0⟩, ⟨0, 0, -1⟩⟩ = 5 := by
  unfold sphereNearRoot
  rw [greenSphere_disc_down]
  simp only [real_sqrt_sixteen]
  norm_num [Sphere.new, dot, vec3.sub_def]

theorem greenSphere_intersect_down :
    (Sphere.new (⟨0, 0, -7⟩ : vec3 ℝ) 2 greenMat).intersect ⟨Real.sqrt, fun a b => a ^ b⟩
      ⟨⟨0, 0, 0⟩, ⟨0, 0, -1⟩⟩
      = some (5, normalize ⟨Real.sqrt, fun a b => a ^ b⟩
          ((⟨0, 0, 0⟩ : vec3 ℝ) + (5 : ℝ) * (⟨0, 0, -1⟩ : vec3 ℝ) - ⟨0, 0, -7⟩)) := by
  rw [Sphere.intersect_eq, greenSphere_disc_down, greenSphere_nearRoot_down,
    if_neg (by norm_num), if_neg (by norm_num)]
  rfl

/-- Witness for C19: the middle sphere of `main` and the ray from the origin toward `-z`,
which hits at `t = 5`. -/
theorem sphere_hit_is_first_point_witness :
    (0 : ℝ) ≤ 5 ∧
    Real.sqrt (dot ((⟨0, 0, 0⟩ : vec3 ℝ) + (5 : ℝ) * (⟨0, 0, -1⟩ : vec3 ℝ) - ⟨0, 0, -7⟩)
      ((⟨0, 0, 0⟩ : vec3 ℝ) + (5 : ℝ) * (⟨0, 0, -1⟩ : vec3 ℝ) - ⟨0, 0, -7⟩)) = 2 :=
  have h := sphere_hit_is_first_point ⟨Real.sqrt, fun a b => a ^ b⟩ real_exactSqrt
    (Sphere.new (⟨0, 0, -7⟩ : vec3 ℝ) 2 greenMat) ⟨⟨0, 0, 0⟩, ⟨0, 0, -1⟩⟩
    (by norm_num [Sphere.new]) (by norm_num [dot]) 5 _ greenSphere_intersect_down
  ⟨h.1, h.2.1⟩

/-! ### Insertion order -/

theorem scanInv_none_of_perm (ops : MathOps K) (ray : Ray K) (l1 l2 : List (Surface K))
    (hperm : l1.Perm l2)
    (h1 : (l1.foldl (Scene.intersectStep ops ray) (FLT_MAX, none)).2 = none) :
    (l2.foldl (Scene.intersectStep ops ray) (FLT_MAX, none)).2 = none := by
  obtain ⟨hN1, _⟩ := scanInv_foldl ops ray l1
  obtain ⟨_, hS2⟩ := scanInv_foldl ops ray l2
  cases hres : (l2.foldl (Scene.intersectStep ops ray) (FLT_MAX, none)).2 with
  | none => rfl
  | some hit =>
    exfalso
    obtain ⟨hlt, k, obj, n, hk, hobj, _⟩ := hS2 hit hres
    have hmem : obj ∈ l1 := hperm.symm.subset (List.getElem?_mem hk)
    exact absurd ((hN1 h1).2 obj hmem _ n hobj) (not_le.2 hlt)

/-- C14: for two scenes that hold the same surfaces in different insertion orders, if at
most one position of the first scene attains the smallest `t` among the surfaces that
intersect the ray, `Scene.intersect` gives the same answer and the same record for both;
so the insertion order changes the result only when two surfaces tie on the smallest
`t`. -/
theorem scene_intersect_order_irrelevant (ops : MathOps K) (ray : Ray K)
    (l1 l2 : List (Surface K)) (hperm : l1.Perm l2)
    (huniq : ∀ (i j : Nat) (oi oj : Surface K) (t : K) (ni nj : vec3 K),
      l1[i]? = some oi → l1[j]? = some oj →
      oi.intersect ops ray = some (t, ni) → oj.intersect ops ray = some (t, nj) →
      (∀ obj ∈ l1, ∀ (t1 : K) (n1 : vec3 K), obj.intersect ops ray = some (t1, n1) → t ≤ t1) →
      i = j) :
    Scene.intersect ops ⟨l1⟩ ray = Scene.intersect ops ⟨l2⟩ ray := by
  unfold Scene.intersect
  simp only
  cases hr1 : (l1.foldl (Scene.intersectStep ops ray) (FLT_MAX, none)).2 with
  | none => rw [scanInv_none_of_perm ops ray l1 l2 hperm hr1]
  | some hit1 =>
    cases hr2 : (l2.foldl (Scene.intersectStep ops ray) (FLT_MAX, none)).2 with
    | none =>
      rw [scanInv_none_of_perm ops ray l2 l1 hperm.symm hr2] at hr1
      exact Option.noConfusion hr1
    | some hit2 =>
      obtain ⟨_, hS1⟩ := scanInv_foldl ops ray l1
      obtain ⟨_, hS2⟩ := scanInv_foldl ops ray l2
      obtain ⟨_, k1, obj1, n1, hk1, hobj1, hmin1, _, hrec1⟩ := hS1 hit1 hr1
      obtain ⟨_, k2, obj2, n2, hk2, hobj2, hmin2, _, hrec2⟩ := hS2 hit2 hr2
      generalize (l1.foldl (Scene.intersectStep ops ray) (FLT_MAX, none)).1 = t1
        at hobj1 hmin1 hrec1
      generalize (l2.foldl (Scene.intersectStep ops ray) (FLT_MAX, none)).1 = t2
        at hobj2 hmin2 hrec2
      obtain ⟨m, hm⟩ := List.getElem?_of_mem (hperm.symm.subset (List.getElem?_mem hk2))
      obtain ⟨m1, hm1⟩ := List.getElem?_of_mem (hperm.subset (List.getElem?_mem hk1))
      have h12 : t1 ≤ t2 := hmin1 m obj2 t2 n2 hm hobj2
      have h21 : t2 ≤ t1 := hmin2 m1 obj1 t1 n1 hm1 hobj1
      have heq : t2 = t1 := le_antisymm h21 h12
      rw [heq] at hobj2 hrec2
      have hidx : k1 = m := huniq k1 m obj1 obj2 t1 n1 n2 hk1 hm hobj1 hobj2 (by
        intro obj hobj t3 n3 hi
        obtain ⟨p, hp⟩ := List.getElem?_of_mem hobj
        exact hmin1 p obj t3 n3 hp hi)
      rw [hidx, hm] at hk1
      simp only [Option.some.injEq] at hk1
      rw [← hk1, hobj2] at hobj1
      simp only [Option.some.injEq, Prod.mk.injEq, true_and] at hobj1
      rw [hrec1, hrec2, hk1, hobj1]

theorem plane_intersect_down (y : ℝ) (mat : Material ℝ) (hy : y ≤ 0) :
    (Surface.plane (Plane.new y mat)).intersect ⟨Real.sqrt, fun a b => a ^ b⟩
      ⟨⟨0, 0, 0⟩, ⟨0, -1, 0⟩⟩ = some (-y, ⟨0, 1, 0⟩) := by
  have h : ¬ (-y < 0) := by linarith
  have ht : (y - 0) / (-1 : ℝ) = -y := by ring
  simp only [Surface.intersect, Plane.intersect, Plane.new]
  rw [if_neg (by norm_num), ht, if_neg h]

/-- Witness for C14: the planes at heights `-2` and `-3` in the two orders and the ray from
the origin straight down. -/
theorem scene_intersect_order_irrelevant_witness :
    Scene.intersect ⟨Real.sqrt, fun a b => a ^ b⟩
        ⟨[Surface.plane (Plane.new (-2 : ℝ) planeMat), Surface.plane (Plane.new (-3) redMat)]⟩
        ⟨⟨0, 0, 0⟩, ⟨0, -1, 0⟩⟩
      = Scene.intersect ⟨Real.sqrt, fun a b => a ^ b⟩
        ⟨[Surface.plane (Plane.new (-3 : ℝ) redMat), Surface.plane (Plane.new (-2) planeMat)]⟩
        ⟨⟨0, 0, 0⟩, ⟨0, -1, 0⟩⟩ :=
  scene_intersect_order_irrelevant ⟨Real.sqrt, fun a b => a ^ b⟩ ⟨⟨0, 0, 0⟩, ⟨0, -1, 0⟩⟩
    [Surface.plane (Plane.new (-2 : ℝ) planeMat), Surface.plane (Plane.new (-3) redMat)]
    [Surface.plane (Plane.new (-3 : ℝ) redMat), Surface.plane (Plane.new (-2) planeMat)]
    (List.Perm.swap _ _ _) (by
      intro i j oi oj t ni nj hi hj hti htj hmin
      have h2 := hmin (Surface.plane (Plane.new (-2 : ℝ) planeMat)) (by simp) 2 ⟨0, 1, 0⟩
        (by
          have h := plane_intersect_down (-2) planeMat (by norm_num)
          norm_num at h
          exact h)
      have h3 := plane_intersect_down (-3) redMat (by norm_num)
      rcases i with _ | _ | i
      · rcases j with _ | _ | j
        · rfl
        · simp only [List.getElem?_cons_succ, List.getElem?_cons_zero,
            Option.some.injEq] at hj
          rw [← hj, h3] at htj
          simp only [Option.some.injEq, Prod.mk.injEq] at htj
          linarith [htj.1]
        · simp at hj
      · rcases j with _ | _ | j
        · simp only [List.getElem?_cons_succ, List.getElem?_cons_zero,
            Option.some.injEq] at hi
          rw [← hi, h3] at hti
          simp only [Option.some.injEq, Prod.mk.injEq] at hti
          linarith [hti.1]
        · rfl
        · simp at hj
      · simp at hi)

/-! ### The shadow test -/

theorem scene_intersect_isSome_iff (ops : MathOps K) (scene : Scene K) (ray : Ray K) :
    (scene.intersect ops ray).isSome = true ↔
      ∃ obj ∈ scene.objects, ∃ (t : K) (n : vec3 K),
        obj.intersect ops ray = some (t, n) ∧ t < FLT_MAX := by
  obtain ⟨hN, hS⟩ := scanInv_foldl ops ray scene.objects
  constructor
  · intro h
    cases hres : scene.intersect ops ray with
    | none =>
      rw [hres] at h
      exact absurd h (by simp)
    | some hit =>
      obtain ⟨hlt, k, obj, n, hk, hobj, _⟩ := hS hit hres
      exact ⟨obj, List.getElem?_mem hk, _, n, hobj, hlt⟩
  · rintro ⟨obj, hmem, t, n, hobj, hlt⟩
    cases hres : scene.intersect ops ray with
    | none => exact absurd ((hN hres).2 obj hmem t n hobj) (not_le.2 hlt)
    | some hit => rfl

theorem inShadow_eq (ops : MathOps K) (scene : Scene K) (p : vec3 K) :
    inShadow ops scene p = (scene.intersect ops (shadowRay ops p)).isSome := rfl

/-- C16: the hit at position `p` is shaded with `diffuse = specular = 0` exactly when
`Scene.intersect` reports a hit on the shadow ray, the ray from `p + 0.001 * L` in direction
`L`; that is the case as soon as one surface meets the shadow ray at some `t < FLT_MAX`,
also at a `t` greater than the distance from `p` to the light minus `0.001`. -/
theorem shadow_test_ignores_light_distance (ops : MathOps K) (scene : Scene K)
    (ray : Ray K) (hit : HitRecord K) :
    shade ops scene ray hit
      = (if (scene.intersect ops (shadowRay ops hit.hitPos)).isSome = true then
          hit.mat.ka * Ia + vec3.splat 0 + vec3.splat 0
        else
          hit.mat.ka * Ia
            + hit.mat.kd * Il
              * max (dot hit.hitNormal (normalize ops (lightPos - hit.hitPos))) 0
            + hit.mat.ks * Il
              * ops.pow (max (dot
                  (normalize ops (((2 : K)
                    * dot hit.hitNormal (normalize ops (lightPos - hit.hitPos)))
                    * hit.hitNormal - normalize ops (lightPos - hit.hitPos)))
                  (normalize ops (-ray.direction))) 0) hit.mat.specPower) ∧
    ((scene.intersect ops (shadowRay ops hit.hitPos)).isSome = true ↔
      ∃ obj ∈ scene.objects, ∃ (t : K) (n : vec3 K),
        obj.intersect ops (shadowRay ops hit.hitPos) = some (t, n) ∧ t < FLT_MAX) ∧
    (∀ obj ∈ scene.objects, ∀ (t : K) (n : vec3 K),
      obj.intersect ops (shadowRay ops hit.hitPos) = some (t, n) → t < FLT_MAX →
      ops.sqrtf (dot (lightPos - hit.hitPos) (lightPos - hit.hitPos)) - 0.001 < t →
      (scene.intersect ops (shadowRay ops hit.hitPos)).isSome = true) := by
  refine ⟨?_, scene_intersect_isSome_iff ops scene _, ?_⟩
  · unfold shade shadowRay
    dsimp only
    generalize (scene.intersect ops (Ray.new ops
      (hit.hitPos + (0.001 : K) * normalize ops (lightPos - hit.hitPos))
      (normalize ops (lightPos - hit.hitPos)))).isSome = sh
    cases sh <;> simp
  · intro obj hmem t n hobj hlt _
    exact (scene_intersect_isSome_iff ops scene _).2 ⟨obj, hmem, t, n, hobj, hlt⟩

theorem real_sqrt_thirty_six : Real.sqrt 36 = 6 := by
  rw [show (36 : ℝ) = 6 ^ 2 by norm_num]
  exact Real.sqrt_sq (by norm_num)

theorem shadowRay_below_light :
    shadowRay ⟨Real.sqrt, fun a b => a ^ b⟩ (⟨-4, -2, -3⟩ : vec3 ℝ)
      = ⟨⟨-4, -1.999, -3⟩, ⟨0, 1, 0⟩⟩ := by
  have hL : normalize ⟨Real.sqrt, fun a b => a ^ b⟩ (lightPos - (⟨-4, -2, -3⟩ : vec3 ℝ))
      = ⟨0, 1, 0⟩ := by
    have hd : dot (lightPos - (⟨-4, -2, -3⟩ : vec3 ℝ)) (lightPos - ⟨-4, -2, -3⟩) = 36 := by
      norm_num [dot, lightPos, vec3.sub_def]
    unfold normalize inversesqrt
    rw [hd]
    simp only [real_sqrt_thirty_six]
    norm_num [lightPos, vec3.sub_def, vec3.mul_scalar_def]
  unfold shadowRay
  rw [hL]
  norm_num [Ray.new, normalize, inversesqrt, dot, vec3.mul_scalar_def, vec3.add_def,
    vec3.smul_def]

/-- Witness for C16: below the light, at `p = (-4, -2, -3)`, the light is at distance `6`;
the plane at height `10` meets the shadow ray at `t = 11.999`, beyond the light, and the
point is in shadow. -/
theorem shadow_test_ignores_light_distance_witness :
    Real.sqrt (dot (lightPos - (⟨-4, -2, -3⟩ : vec3 ℝ)) (lightPos - ⟨-4, -2, -3⟩)) = 6 ∧
    (Surface.plane (Plane.new (10 : ℝ) planeMat)).intersect ⟨Real.sqrt, fun a b => a ^ b⟩
        (shadowRay ⟨Real.sqrt, fun a b => a ^ b⟩ (⟨-4, -2, -3⟩ : vec3 ℝ))
      = some (11.999, ⟨0, 1, 0⟩) ∧
    ((twoPlaneScene : Scene ℝ).intersect ⟨Real.sqrt, fun a b => a ^ b⟩
      (shadowRay ⟨Real.sqrt, fun a b => a ^ b⟩ (⟨-4, -2, -3⟩ : vec3 ℝ))).isSome = true := by
  have hdist : Real.sqrt (dot (lightPos - (⟨-4, -2, -3⟩ : vec3 ℝ))
      (lightPos - ⟨-4, -2, -3⟩)) = 6 := by
    have hd : dot (lightPos - (⟨-4, -2, -3⟩ : vec3 ℝ)) (lightPos - ⟨-4, -2, -3⟩) = 36 := by
      norm_num [dot, lightPos, vec3.sub_def]
    rw [hd, real_sqrt_thirty_six]
  have hobj : (Surface.plane (Plane.new (10 : ℝ) planeMat)).intersect
      ⟨Real.sqrt, fun a b => a ^ b⟩
      (shadowRay ⟨Real.sqrt, fun a b => a ^ b⟩ (⟨-4, -2, -3⟩ : vec3 ℝ))
      = some (11.999, ⟨0, 1, 0⟩) := by
    rw [shadowRay_below_light]
    norm_num [Surface.intersect, Plane.intersect, Plane.new]
  have h := (shadow_test_ignores_light_distance ⟨Real.sqrt, fun a b => a ^ b⟩
    (twoPlaneScene : Scene ℝ) ⟨⟨0, 0, 0⟩, ⟨0, -1, 0⟩⟩
    ⟨vec3.splat 1, ⟨0, 1, 0⟩, planeMat, ⟨-4, -2, -3⟩⟩).2.2
  dsimp only at h
  have hfar : Real.sqrt (dot (lightPos - (⟨-4, -2, -3⟩ : vec3 ℝ)) (lightPos - ⟨-4, -2, -3⟩))
      - 0.001 < 11.999 := by
    rw [hdist]
    norm_num
  exact ⟨hdist, hobj, h (Surface.plane (Plane.new (10 : ℝ) planeMat))
    (by simp [twoPlaneScene, Scene.addObject]) 11.999 ⟨0, 1, 0⟩ hobj
    (by norm_num [FLT_MAX]) hfar⟩

/-! ### Gamma before the average -/

theorem Q3.pixel_channel_eq [FloorRing K] (ops : MathOps K) (rng : RandSource)
    (camera : Camera K) (scene : Scene K) (π : vec3 K → K)
    (hadd : ∀ a b, π (a + b) = π a + π b) (hdiv : ∀ (a : vec3 K) (s : K), π (a / s) = π a / s)
    (hzero : π (vec3.splat 0) = 0)
    (hgam : ∀ c, π (gammaCorrect ops c) = ops.pow (π c) (1 / gamma)) (i j k : Nat) :
    π (Q3.pixelColor ops rng camera scene i j k).1
      = gammaThenAverage ops ((List.range Q3.N).map
          (fun s => π (Q3.clampedAt ops rng camera scene i j (k + 2 * s)))) := by
  unfold gammaThenAverage
  rw [fst_eq_of_eq_mk (Q3.pixelColor_eq ops rng camera scene i j k), hdiv,
    foldl_add_proj π hadd, hzero, zero_add, List.map_map]
  have h64 : ((Q3.N : Nat) : K) = 64 := by
    unfold Q3.N
    norm_num
  rw [h64]
  congr 2
  apply List.map_congr_left
  intro s _
  rw [Q3.sampleAt_eq, hgam]
  rfl

theorem half_rpow_ne_half : ((1 : ℝ) / 2) ^ ((1 : ℝ) / gamma) ≠ 1 / 2 := by
  have h : ((1 : ℝ) / 2) ^ (1 : ℝ) < ((1 : ℝ) / 2) ^ ((1 : ℝ) / gamma) :=
    Real.rpow_lt_rpow_of_exponent_gt (by norm_num) (by norm_num) (by
      unfold gamma
      norm_num)
  rw [Real.rpow_one] at h
  exact h.ne'

/-- C17: in Q3 each output channel of pixel `(i, j)` is `(1/64) * sum of c_s^(1/2.2)` over
the 64 clamped sample values `c_s` of that channel, gamma applied to each sample and then
the mean; for the sequence of 32 zeros and 32 ones this is `1/2`, which is not the value
`(1/2)^(1/2.2)` of the other order, the mean and then gamma. -/
theorem gamma_applied_per_sample [FloorRing K] (ops : MathOps K) (rng : RandSource)
    (camera : Camera K) (scene : Scene K) (out0 : List K) (k0 : Nat) :
    (∀ i j : Nat, i < Width → j < Height →
      (Q3.render ops rng camera scene (out0, k0)).1[3 * (j * Width + i)]?
        = some (gammaThenAverage ops ((List.range Q3.N).map (fun s =>
            (Q3.clampedAt ops rng camera scene i j
              (k0 + 2 * Q3.N * (j * Width + i) + 2 * s)).x))) ∧
      (Q3.render ops rng camera scene (out0, k0)).1[3 * (j * Width + i) + 1]?
        = some (gammaThenAverage ops ((List.range Q3.N).map (fun s =>
            (Q3.clampedAt ops rng camera scene i j
              (k0 + 2 * Q3.N * (j * Width + i) + 2 * s)).y))) ∧
      (Q3.render ops rng camera scene (out0, k0)).1[3 * (j * Width + i) + 2]?
        = some (gammaThenAverage ops ((List.range Q3.N).map (fun s =>
            (Q3.clampedAt ops rng camera scene i j
              (k0 + 2 * Q3.N * (j * Width + i) + 2 * s)).z)))) ∧
    (List.replicate 32 (0 : ℝ) ++ List.replicate 32 1).length = 64 ∧
    (∀ c ∈ List.replicate 32 (0 : ℝ) ++ List.replicate 32 1, 0 ≤ c ∧ c ≤ 1) ∧
    gammaThenAverage ⟨Real.sqrt, fun a b => a ^ b⟩
        (List.replicate 32 (0 : ℝ) ++ List.replicate 32 1) = 1 / 2 ∧
    averageThenGamma ⟨Real.sqrt, fun a b => a ^ b⟩
        (List.replicate 32 (0 : ℝ) ++ List.replicate 32 1) = (1 / 2) ^ ((1 : ℝ) / gamma) ∧
    gammaThenAverage ⟨Real.sqrt, fun a b => a ^ b⟩
        (List.replicate 32 (0 : ℝ) ++ List.replicate 32 1)
      ≠ averageThenGamma ⟨Real.sqrt, fun a b => a ^ b⟩
        (List.replicate 32 (0 : ℝ) ++ List.replicate 32 1) := by
  have hgt : gammaThenAverage ⟨Real.sqrt, fun a b => a ^ b⟩
      (List.replicate 32 (0 : ℝ) ++ List.replicate 32 1) = 1 / 2 := by
    have h0 : (0 : ℝ) ^ ((1 : ℝ) / gamma) = 0 := Real.zero_rpow one_div_gamma_pos.ne'
    simp only [gammaThenAverage, List.map_append, List.map_replicate, List.sum_append,
      List.sum_replicate, h0, Real.one_rpow]
    norm_num
  have hag : averageThenGamma ⟨Real.sqrt, fun a b => a ^ b⟩
      (List.replicate 32 (0 : ℝ) ++ List.replicate 32 1) = (1 / 2) ^ ((1 : ℝ) / gamma) := by
    simp only [averageThenGamma, List.sum_append, List.sum_replicate]
    norm_num
  refine ⟨?_, by simp, ?_, hgt, hag, ?_⟩
  · intro i j hi hj
    have h0 := Q3_render_getElem? ops rng camera scene out0 k0 i j 0 hi hj (by omega)
    have h1 := Q3_render_getElem? ops rng camera scene out0 k0 i j 1 hi hj (by omega)
    have h2 := Q3_render_getElem? ops rng camera scene out0 k0 i j 2 hi hj (by omega)
    rw [Q3.pixel_channel_eq ops rng camera scene vec3.x (fun _ _ => rfl) (fun _ _ => rfl)
      rfl (fun _ => rfl)] at h0
    rw [Q3.pixel_channel_eq ops rng camera scene vec3.y (fun _ _ => rfl) (fun _ _ => rfl)
      rfl (fun _ => rfl)] at h1
    rw [Q3.pixel_channel_eq ops rng camera scene vec3.z (fun _ _ => rfl) (fun _ _ => rfl)
      rfl (fun _ => rfl)] at h2
    exact ⟨h0, h1, h2⟩
  · intro c hc
    rcases List.mem_append.1 hc with h | h
    · rw [List.eq_of_mem_replicate h]
      norm_num
    · rw [List.eq_of_mem_replicate h]
      norm_num
  · rw [hgt, hag]
    exact half_rpow_ne_half.symm

/-! ### The image-centre pixel of `main` -/

theorem real_powStrictMono :
    MathOps.PowStrictMono (⟨Real.sqrt, fun a b => a ^ b⟩ : MathOps ℝ) :=
  fun _ _ _ ha hab he => Real.rpow_lt_rpow ha hab he

theorem mainCamera_centre_vector :
    imagePlaneVector (mainCamera : Camera K) ((256 : Int) : K) ((256 : Int) : K)
      = ⟨1 / 5120, 1 / 5120, -(1 / 10)⟩ := by
  rw [vec3.ext_iff3]
  simp only [imagePlaneVector, mainCamera, vec3.mul_scalar_def, vec3.add_def, vec3.sub_def,
    vec3.splat]
  push_cast
  refine ⟨?_, ?_, ?_⟩ <;> norm_num

theorem mainCamera_centre_ray (ops : MathOps K) (hsqrt : ops.ExactSqrt) :
    ∃ w : K, 0 < w ∧ w * w * (1 / 100 + 2 / 5120 ^ 2) = 1 ∧
      (mainCamera : Camera K).generateRay ops 256 256 = centreRay w := by
  have hdot : dot (imagePlaneVector (mainCamera : Camera K) ((256 : Int) : K)
      ((256 : Int) : K)) (imagePlaneVector (mainCamera : Camera K) ((256 : Int) : K)
      ((256 : Int) : K)) = 1 / 100 + 2 / 5120 ^ 2 := by
    rw [mainCamera_centre_vector]
    simp only [dot]
    norm_num
  have hpos : (0 : K) < dot (imagePlaneVector (mainCamera : Camera K) ((256 : Int) : K)
      ((256 : Int) : K)) (imagePlaneVector (mainCamera : Camera K) ((256 : Int) : K)
      ((256 : Int) : K)) := by
    rw [hdot]
    norm_num
  have hdir := generateRay_direction ops hsqrt (mainCamera : Camera K) 256 256 hpos
  have hs := hsqrt.sqrtf_pos hpos
  obtain ⟨_, hss⟩ := hsqrt _ hpos.le
  rw [hdot] at hs hss
  refine ⟨1 / ops.sqrtf (1 / 100 + 2 / 5120 ^ 2), one_div_pos.2 hs, ?_, ?_⟩
  · have hne : ops.sqrtf (1 / 100 + 2 / 5120 ^ 2) ≠ 0 := hs.ne'
    have h1 : ∀ r : K, r ≠ 0 → 1 / r * (1 / r) * (r * r) = 1 := by
      intro r hr
      field_simp
    have h2 := h1 _ hne
    rw [hss] at h2
    exact h2
  · have horig : ((mainCamera : Camera K).generateRay ops 256 256).origin = ⟨0, 0, 0⟩ := rfl
    have hd2 : ((mainCamera : Camera K).generateRay ops 256 256).direction
        = ⟨1 / ops.sqrtf (1 / 100 + 2 / 5120 ^ 2) / 5120,
            1 / ops.sqrtf (1 / 100 + 2 / 5120 ^ 2) / 5120,
            -(1 / ops.sqrtf (1 / 100 + 2 / 5120 ^ 2) / 10)⟩ := by
      rw [hdir]
      unfold normalize inversesqrt
      rw [hdot, mainCamera_centre_vector, vec3.ext_iff3]
      simp only [vec3.mul_scalar_def]
      refine ⟨?_, ?_, ?_⟩ <;> ring
    unfold centreRay
    rw [← horig, ← hd2]

theorem centreRay_sq_bounds (w : K) (hq : w * w * (1 / 100 + 2 / 5120 ^ 2) = 1) :
    99 ≤ w * w ∧ w * w ≤ 100 := by
  have h0 : 0 ≤ w * w := mul_self_nonneg w
  have h100 : w * w ≤ 100 := by nlinarith
  constructor
  · nlinarith
  · exact h100

theorem centreRay_dot_self (w : K) (hq : w * w * (1 / 100 + 2 / 5120 ^ 2) = 1) :
    dot (centreRay w).direction (centreRay w).direction = 1 := by
  simp only [centreRay, dot]
  rw [← hq]
  ring

theorem centreRay_plane (ops : MathOps K) (w : K) (hw : 0 < w) (mat : Material K) :
    (Surface.plane (Plane.new (-2) mat)).intersect ops (centreRay w) = none := by
  have hy : ¬ (w / 5120 = 0) := (div_pos hw (by norm_num)).ne'
  have ht : (-2 - 0) / (w / 5120) < 0 :=
    div_neg_of_neg_of_pos (by norm_num) (div_pos hw (by norm_num))
  simp only [Surface.intersect, Plane.intersect, Plane.new, centreRay]
  rw [if_neg hy, if_pos ht]

theorem centreRay_redSphere (ops : MathOps K) (w : K)
    (hq : w * w * (1 / 100 + 2 / 5120 ^ 2) = 1) (mat : Material K) :
    (Surface.sphere (Sphere.new ⟨-4, 0, -7⟩ 1 mat)).intersect ops (centreRay w) = none := by
  obtain ⟨_, h100⟩ := centreRay_sq_bounds w hq
  have hd : sphereDisc (Sphere.new ⟨-4, 0, -7⟩ 1 mat) (centreRay w) < 0 := by
    simp only [sphereDisc, centreRay, Sphere.new, dot, vec3.sub_def]
    nlinarith
  simp only [Surface.intersect]
  rw [Sphere.intersect_eq, if_pos hd]

theorem centreRay_blueSphere (ops : MathOps K) (w : K)
    (hq : w * w * (1 / 100 + 2 / 5120 ^ 2) = 1) (mat : Material K) :
    (Surface.sphere (Sphere.new ⟨4, 0, -7⟩ 1 mat)).intersect ops (centreRay w) = none := by
  obtain ⟨_, h100⟩ := centreRay_sq_bounds w hq
  have hd : sphereDisc (Sphere.new ⟨4, 0, -7⟩ 1 mat) (centreRay w) < 0 := by
    simp only [sphereDisc, centreRay, Sphere.new, dot, vec3.sub_def]
    nlinarith
  simp only [Surface.intersect]
  rw [Sphere.intersect_eq, if_pos hd]

theorem centreRay_greenSphere (ops : MathOps K) (hsqrt : ops.ExactSqrt) (w : K)
    (hw : 0 < w) (hq : w * w * (1 / 100 + 2 / 5120 ^ 2) = 1) (mat : Material K) :
    ∃ (t : K) (n : vec3 K), 0 ≤ t ∧ t < FLT_MAX ∧
      (Surface.sphere (Sphere.new ⟨0, 0, -7⟩ 2 mat)).intersect ops (centreRay w)
        = some (t, n) := by
  obtain ⟨h99, h100⟩ := centreRay_sq_bounds w hq
  have hdval : sphereDisc (Sphere.new ⟨0, 0, -7⟩ 2 mat) (centreRay w)
      = 196 / 100 * (w * w) - 180 := by
    simp only [sphereDisc, centreRay, Sphere.new, dot, vec3.sub_def]
    have h1 : w / 5120 * (w / 5120) + w / 5120 * (w / 5120) + -(w / 10) * -(w / 10)
        = 1 := by
      rw [← hq]
      ring
    rw [h1]
    ring
  have hd0 : 0 ≤ sphereDisc (Sphere.new ⟨0, 0, -7⟩ 2 mat) (centreRay w) := by
    rw [hdval]
    linarith
  obtain ⟨hs0, hss⟩ := hsqrt _ hd0
  have hw10 : w ≤ 10 := by nlinarith
  have hsle : ops.sqrtf (sphereDisc (Sphere.new ⟨0, 0, -7⟩ 2 mat) (centreRay w))
      ≤ 14 / 10 * w := by
    by_contra hcon
    rw [not_le] at hcon
    have h2 : 14 / 10 * w * (14 / 10 * w)
        < ops.sqrtf (sphereDisc (Sphere.new ⟨0, 0, -7⟩ 2 mat) (centreRay w))
          * ops.sqrtf (sphereDisc (Sphere.new ⟨0, 0, -7⟩ 2 mat) (centreRay w)) :=
      mul_self_lt_mul_self (by positivity) hcon
    rw [hss, hdval] at h2
    nlinarith
  have hroot : sphereNearRoot ops (Sphere.new ⟨0, 0, -7⟩ 2 mat) (centreRay w)
      = (14 / 10 * w
          - ops.sqrtf (sphereDisc (Sphere.new ⟨0, 0, -7⟩ 2 mat) (centreRay w))) / 2 := by
    unfold sphereNearRoot
    rw [centreRay_dot_self w hq]
    simp only [centreRay, Sphere.new, dot, vec3.sub_def]
    ring
  have hroot0 : 0 ≤ sphereNearRoot ops (Sphere.new ⟨0, 0, -7⟩ 2 mat) (centreRay w) := by
    rw [hroot]
    linarith
  have hrootmax : sphereNearRoot ops (Sphere.new ⟨0, 0, -7⟩ 2 mat) (centreRay w)
      < FLT_MAX := by
    rw [hroot]
    unfold FLT_MAX
    linarith
  refine ⟨sphereNearRoot ops (Sphere.new ⟨0, 0, -7⟩ 2 mat) (centreRay w),
    normalize ops ((centreRay w).origin
      + sphereNearRoot ops (Sphere.new ⟨0, 0, -7⟩ 2 mat) (centreRay w)
        * (centreRay w).direction - (Sphere.new ⟨0, 0, -7⟩ 2 mat).center),
    hroot0, hrootmax, ?_⟩
  simp only [Surface.intersect]
  rw [Sphere.intersect_eq, if_neg (not_lt.2 hd0), if_neg (not_lt.2 hroot0)]

theorem mainScene_centreRay (ops : MathOps K) (hsqrt : ops.ExactSqrt) (w : K)
    (hw : 0 < w) (hq : w * w * (1 / 100 + 2 / 5120 ^ 2) = 1) :
    ∃ (t : K) (n : vec3 K),
      (Surface.sphere (Sphere.new ⟨0, 0, -7⟩ 2 greenMat)).intersect ops (centreRay w)
        = some (t, n) ∧
      (mainScene : Scene K).intersect ops (centreRay w)
        = some ⟨greenMat.kd, n, greenMat, (centreRay w).origin + t * (centreRay w).direction⟩ := by
  obtain ⟨t, n, _, hlt, hgreen⟩ := centreRay_greenSphere ops hsqrt w hw hq greenMat
  refine ⟨t, n, hgreen, ?_⟩
  simp only [mainScene, Scene.addObject, List.nil_append, List.cons_append,
    Scene.intersect, List.foldl_cons, List.foldl_nil, Scene.intersectStep,
    centreRay_plane ops w hw, centreRay_redSphere ops w hq, centreRay_blueSphere ops w hq,
    hgreen, if_pos hlt]
  rfl

theorem normalize_dot_self_le_one (ops : MathOps K) (hsqrt : ops.ExactSqrt) (v : vec3 K) :
    dot (normalize ops v) (normalize ops v) ≤ 1 := by
  by_cases hv : v = ⟨0, 0, 0⟩
  · rw [hv]
    simp [normalize, dot, vec3.mul_scalar_def]
  · rw [normalize_dot_self ops hsqrt v (dot_self_pos_of_ne_zero v hv)]

theorem dot_le_one_of_le_one (a b : vec3 K) (ha : dot a a ≤ 1) (hb : dot b b ≤ 1) :
    dot a b ≤ 1 := by
  unfold dot at *
  nlinarith [sq_nonneg (a.x - b.x), sq_nonneg (a.y - b.y), sq_nonneg (a.z - b.z)]

theorem green_lit_channels (ops : MathOps K) (hunit : ops.PowUnit)
    (hmono : ops.PowStrictMono) (D P : K) (hD : 0 ≤ D) (hP0 : 0 ≤ P) (hP1 : P ≤ 1) :
    (gammaCorrect ops (clamp ((greenMat : Material K).ka + (greenMat : Material K).kd * D
        + (greenMat : Material K).ks * P) 0 1)).x
      < (gammaCorrect ops (clamp ((greenMat : Material K).ka + (greenMat : Material K).kd * D
        + (greenMat : Material K).ks * P) 0 1)).y ∧
    (gammaCorrect ops (clamp ((greenMat : Material K).ka + (greenMat : Material K).kd * D
        + (greenMat : Material K).ks * P) 0 1)).z
      < (gammaCorrect ops (clamp ((greenMat : Material K).ka + (greenMat : Material K).kd * D
        + (greenMat : Material K).ks * P) 0 1)).y ∧
    0 ≤ (gammaCorrect ops (clamp ((greenMat : Material K).ka + (greenMat : Material K).kd * D
        + (greenMat : Material K).ks * P) 0 1)).x := by
  simp only [gammaCorrect, clamp, greenMat, vec3.splat, vec3.add_def, vec3.mul_scalar_def]
  have hx : min (max (0 + 0 * D + 0.5 * P) 0) 1 = 0.5 * P := by
    rw [max_eq_left (by linarith), min_eq_left (by linarith)]
    ring
  have hy : 0.5 * P < min (max (0.2 + 0.5 * D + 0.5 * P) 0) 1 := by
    rw [max_eq_left (by nlinarith)]
    apply lt_min
    · nlinarith
    · linarith
  rw [hx]
  have hx0 : (0 : K) ≤ 0.5 * P := by linarith
  refine ⟨hmono _ _ _ hx0 hy one_div_gamma_pos, hmono _ _ _ hx0 hy one_div_gamma_pos, ?_⟩
  exact (hunit _ _ hx0 (by linarith) one_div_gamma_nonneg).1

theorem green_shadow_channels (ops : MathOps K) (hunit : ops.PowUnit)
    (hmono : ops.PowStrictMono) :
    (gammaCorrect ops (clamp ((greenMat : Material K).ka) 0 1)).x
      < (gammaCorrect ops (clamp ((greenMat : Material K).ka) 0 1)).y ∧
    (gammaCorrect ops (clamp ((greenMat : Material K).ka) 0 1)).z
      < (gammaCorrect ops (clamp ((greenMat : Material K).ka) 0 1)).y ∧
    0 ≤ (gammaCorrect ops (clamp ((greenMat : Material K).ka) 0 1)).x := by
  simp only [gammaCorrect, clamp, greenMat]
  have hx : min (max (0 : K) 0) 1 = 0 := by
    rw [max_self, min_eq_left zero_le_one]
  have hy : (0 : K) < min (max 0.2 0) 1 := by
    rw [max_eq_left (by norm_num)]
    apply lt_min <;> norm_num
  rw [hx]
  refine ⟨hmono _ _ _ le_rfl hy one_div_gamma_pos, hmono _ _ _ le_rfl hy one_div_gamma_pos, ?_⟩
  exact (hunit _ _ le_rfl zero_le_one one_div_gamma_nonneg).1

theorem green_hit_channels (ops : MathOps K) (hsqrt : ops.ExactSqrt) (hunit : ops.PowUnit)
    (hmono : ops.PowStrictMono) (scene : Scene K) (ray : Ray K) (hit : HitRecord K)
    (hmat : hit.mat = greenMat) :
    (gammaCorrect ops (clamp (shade ops scene ray hit) 0 1)).x
      < (gammaCorrect ops (clamp (shade ops scene ray hit) 0 1)).y ∧
    (gammaCorrect ops (clamp (shade ops scene ray hit) 0 1)).z
      < (gammaCorrect ops (clamp (shade ops scene ray hit) 0 1)).y ∧
    0 ≤ (gammaCorrect ops (clamp (shade ops scene ray hit) 0 1)).x := by
  rw [clamp_shade_eq, hmat]
  unfold specShade
  cases inShadow ops scene hit.hitPos with
  | true =>
    simp only [if_true]
    exact green_shadow_channels ops hunit hmono
  | false =>
    simp only [Bool.false_eq_true, if_false]
    have hP := hunit
      (max 0 (dot (normalize ops (((2 : K)
        * dot hit.hitNormal (normalize ops (lightPos - hit.hitPos))) * hit.hitNormal
        - normalize ops (lightPos - hit.hitPos))) (normalize ops (-ray.direction))))
      (greenMat : Material K).specPower (le_max_left _ _)
      (max_le zero_le_one (dot_le_one_of_le_one _ _
        (normalize_dot_self_le_one ops hsqrt _) (normalize_dot_self_le_one ops hsqrt _)))
      (by norm_num [greenMat])
    exact green_lit_channels ops hunit hmono _ _ (le_max_left _ _) hP.1 hP.2

/-- C12: with the camera and the scene of `main`, the primary ray of Q2 through pixel
`(256, 256)` misses the plane and the two outer spheres and hits the middle sphere, so
`Scene.intersect` returns the record of the middle sphere; the pixel colour is not
`(0, 0, 0)` and its green channel is strictly greater than its red and blue channels. -/
theorem main_centre_pixel_green (ops : MathOps K) (hsqrt : ops.ExactSqrt)
    (hunit : ops.PowUnit) (hmono : ops.PowStrictMono) :
    (∃ (t : K) (n : vec3 K),
      (Surface.plane (Plane.new (-2) planeMat)).intersect ops
        ((mainCamera : Camera K).generateRay ops 256 256) = none ∧
      (Surface.sphere (Sphere.new ⟨-4, 0, -7⟩ 1 redMat)).intersect ops
        ((mainCamera : Camera K).generateRay ops 256 256) = none ∧
      (Surface.sphere (Sphere.new ⟨0, 0, -7⟩ 2 greenMat)).intersect ops
        ((mainCamera : Camera K).generateRay ops 256 256) = some (t, n) ∧
      (Surface.sphere (Sphere.new ⟨4, 0, -7⟩ 1 blueMat)).intersect ops
        ((mainCamera : Camera K).generateRay ops 256 256) = none ∧
      (mainScene : Scene K).intersect ops ((mainCamera : Camera K).generateRay ops 256 256)
        = some ⟨greenMat.kd, n, greenMat,
            ((mainCamera : Camera K).generateRay ops 256 256).origin
              + t * ((mainCamera : Camera K).generateRay ops 256 256).direction⟩) ∧
    Q2.pixelColor ops (mainCamera : Camera K) mainScene 256 256 ≠ ⟨0, 0, 0⟩ ∧
    (Q2.pixelColor ops (mainCamera : Camera K) mainScene 256 256).x
      < (Q2.pixelColor ops (mainCamera : Camera K) mainScene 256 256).y ∧
    (Q2.pixelColor ops (mainCamera : Camera K) mainScene 256 256).z
      < (Q2.pixelColor ops (mainCamera : Camera K) mainScene 256 256).y := by
  obtain ⟨w, hw, hq, hray⟩ := mainCamera_centre_ray ops hsqrt
  obtain ⟨t, n, hgreen, hscene⟩ := mainScene_centreRay ops hsqrt w hw hq
  have hpx : Q2.pixelColor ops (mainCamera : Camera K) mainScene 256 256
      = gammaCorrect ops (clamp (shade ops mainScene (centreRay w)
          ⟨greenMat.kd, n, greenMat,
            (centreRay w).origin + t * (centreRay w).direction⟩) 0 1) := by
    unfold Q2.pixelColor
    have hcast : (mainCamera : Camera K).generateRay ops ((256 : Nat) : Int)
        ((256 : Nat) : Int) = centreRay w := hray
    simp only [hcast, hscene]
  obtain ⟨hxy, hzy, hx0⟩ := green_hit_channels ops hsqrt hunit hmono mainScene (centreRay w)
    ⟨greenMat.kd, n, greenMat, (centreRay w).origin + t * (centreRay w).direction⟩ rfl
  rw [← hpx] at hxy hzy hx0
  refine ⟨⟨t, n, ?_, ?_, ?_, ?_, ?_⟩, ?_, hxy, hzy⟩
  · rw [hray]
    exact centreRay_plane ops w hw planeMat
  · rw [hray]
    exact centreRay_redSphere ops w hq redMat
  · rw [hray]
    exact hgreen
  · rw [hray]
    exact centreRay_blueSphere ops w hq blueMat
  · rw [hray]
    exact hscene
  · intro hcon
    rw [hcon] at hxy hx0
    exact absurd hxy (not_lt.2 hx0)

/-- Witness for C12: the reals with the real square root and the real power. -/
theorem main_centre_pixel_green_witness :
    Q2.pixelColor ⟨Real.sqrt, fun a b => a ^ b⟩ (mainCamera : Camera ℝ) mainScene 256 256
      ≠ ⟨0, 0, 0⟩ ∧
    (Q2.pixelColor ⟨Real.sqrt, fun a b => a ^ b⟩ (mainCamera : Camera ℝ) mainScene 256 256).x
      < (Q2.pixelColor ⟨Real.sqrt, fun a b => a ^ b⟩ (mainCamera : Camera ℝ) mainScene 256
          256).y ∧
    (Q2.pixelColor ⟨Real.sqrt, fun a b => a ^ b⟩ (mainCamera : Camera ℝ) mainScene 256 256).z
      < (Q2.pixelColor ⟨Real.sqrt, fun a b => a ^ b⟩ (mainCamera : Camera ℝ) mainScene 256
          256).y :=
  (main_centre_pixel_green ⟨Real.sqrt, fun a b => a ^ b⟩ real_exactSqrt real_powUnit
    real_powStrictMono).2

/-- Witness for C17: the camera and scene of `main`, pixel `(1, 2)`, empty prior buffer. -/
theorem gamma_applied_per_sample_witness :
    (Q3.render ⟨Real.sqrt, fun a b => a ^ b⟩ ⟨32767, fun n => (7919 * n + 13) % 32768⟩
      (mainCamera : Camera ℝ) mainScene ([], 0)).1[3 * (2 * Width + 1)]?
      = some (gammaThenAverage ⟨Real.sqrt, fun a b => a ^ b⟩ ((List.range Q3.N).map (fun s =>
          (Q3.clampedAt ⟨Real.sqrt, fun a b => a ^ b⟩
            ⟨32767, fun n => (7919 * n + 13) % 32768⟩ (mainCamera : Camera ℝ) mainScene 1 2
            (0 + 2 * Q3.N * (2 * Width + 1) + 2 * s)).x))) :=
  ((gamma_applied_per_sample ⟨Real.sqrt, fun a b => a ^ b⟩
    ⟨32767, fun n => (7919 * n + 13) % 32768⟩ (mainCamera : Camera ℝ) mainScene [] 0).1
    1 2 (by decide) (by decide)).1

end Proofs

end RayCaster
